import Mathlib

/-!
# Storage class matching and membership (`storage_class/storage_class.go`)

A shallow embedding of the Go package `storage_class` of Trident.

Modelling conventions.

* A Go `map[string]V` is the list of its entries (`List (String × V)`), read with
  `List.lookup` and iterated in list order.  A nil map and an empty map behave alike for
  `len`, `range` and lookups, so both are `[]`; the one map whose nil-ness the code tests
  (`storagePool.Attributes == nil`) is an `Option`.
* A Go pointer is the address it holds: objects compared by identity carry an `addr`.
* A Go panic is the result `none`.
* `storage_attribute.Offer`, `storage_attribute.Request` and the method
  `Offer.Matches(Request)` belong to another package: they are the type parameters
  `Offer`, `Request` and the function parameter `om`.
* `sort.Strings` is the standard library's sort into increasing order.
* `ConstructExternal` and `ConstructPersistent` store the pointer `s.config` in their result
  and sort the allow-list slices behind it in place, so they return the class afterwards
  together with the projection.
-/

namespace storage_class

/-! ## Data model -/

/-- The type `config.Protocol` (a Go string type). -/
abbrev Protocol := String

/-- What a pool reaches through its `Backend` pointer: the address held by the pointer, and
the fields `Name` and `GetProtocol()` of the `storage.StorageBackend` it points to. -/
structure BackendRef where
  addr : Nat
  Name : String
  Protocol : Protocol
  deriving DecidableEq, Repr

/-- The type `storage.VolumeConfig`, reduced to the field read here. -/
structure VolumeConfig where
  StorageClass : String
  deriving DecidableEq, Repr

/-- The type `storage.Volume` behind a `*storage.Volume`. -/
structure Volume where
  addr : Nat
  Config : VolumeConfig
  deriving DecidableEq, Repr

/-- The type `storage.StoragePool` behind a `*storage.StoragePool`.  `Attributes` is `none`
for a nil map.  The field `StorageClasses`, written by `AddStorageClass`, is kept apart in
`PoolClasses` because a pool is shared by every list that refers to it. -/
structure StoragePool (Offer : Type) where
  addr : Nat
  Name : String
  Backend : BackendRef
  Attributes : Option (List (String × Offer))
  Volumes : List Volume
  deriving DecidableEq

/-- The type `storage.StorageBackend` behind a `*storage.StorageBackend`: its own address,
name and protocol, whether it is online, and the pools it exposes (`b.Storage`, in the
order the `range` loop visits them). -/
structure StorageBackend (Offer : Type) extends BackendRef where
  Online : Bool
  Storage : List (StoragePool Offer)

/-- The type `storage_class.Config`. -/
structure Config (Request : Type) where
  Version : String
  Name : String
  Attributes : List (String × Request)
  BackendStoragePools : List (String × List String)

/-- The type `storage_class.StorageClass`: the configuration and the member pools. -/
structure StorageClass (Offer Request : Type) where
  config : Config Request
  pools : List (StoragePool Offer)

/-- The type `storage_class.StorageClassExternal`. -/
structure StorageClassExternal (Request : Type) where
  Config : Config Request
  StoragePools : List (String × List String)

/-- The type `storage_class.StorageClassPersistent`. -/
structure StorageClassPersistent (Request : Type) where
  Config : Config Request

/-- The `StorageClasses` field of the pool objects: the class names recorded for the pool at
each address, in the order they were appended. -/
abbrev PoolClasses := List (Nat × String)

variable {Offer Request : Type}

/-! ## Go maps and `sort.Strings` -/

/-- The Go assignment `m[k] = v`: overwrite the entry of `k`, or add one. -/
def mapSet {V : Type} : List (String × V) → String → V → List (String × V)
  | [], k, v => [(k, v)]
  | (k', v') :: rest, k, v =>
    if k' = k then (k, v) :: rest else (k', v') :: mapSet rest k v

/-- The order of Go strings used by `sort.Strings`: lexicographic, character by character.
(Go compares the UTF-8 bytes, which orders strings as their code points do.) -/
def stringLE (a b : String) : Prop := a.toList ≤ b.toList

instance : DecidableRel stringLE := fun a b => inferInstanceAs (Decidable (a.toList ≤ b.toList))

/-- The call `sort.Strings(list)`: the list in increasing order. -/
def sortStrings (list : List String) : List String :=
  list.insertionSort stringLE

/-- The loop `for _, list := range m { sort.Strings(list) }`: every list of the map is sorted
in place. -/
def sortLists (m : List (String × List String)) : List (String × List String) :=
  m.map (fun e => (e.1, sortStrings e.2))

/-! ## The operations -/

/-- The function `New`; `apiVersion` is `config.OrchestratorAPIVersion`. -/
def New (apiVersion : String) (c : Config Request) : StorageClass Offer Request :=
  { config := if c.Version = "" then { c with Version := apiVersion } else c
    pools := [] }

/-- The method `StorageClass.GetName`. -/
def StorageClass.GetName (s : StorageClass Offer Request) : String :=
  s.config.Name

/-- The method `StorageClass.GetAttributes`. -/
def StorageClass.GetAttributes (s : StorageClass Offer Request) : List (String × Request) :=
  s.config.Attributes

/-- The method `StorageClass.GetBackendStoragePools`. -/
def StorageClass.GetBackendStoragePools (s : StorageClass Offer Request) :
    List (String × List String) :=
  s.config.BackendStoragePools

/-- The inner loop of `Matches` over an allow-list entry: `true` at the first name equal to
the pool's, `false` when the list is exhausted. -/
def nameListed (poolName : String) : List String → Bool
  | [] => false
  | storagePoolName :: rest =>
    if storagePoolName = poolName then true else nameListed poolName rest

/-- Lines 41-49 of `Matches`: whether the early `return true` is taken. -/
def allowListed (c : Config Request) (storagePool : StoragePool Offer) : Bool :=
  if c.BackendStoragePools.length > 0 then
    match c.BackendStoragePools.lookup storagePool.Backend.Name with
    | some storagePoolList => nameListed storagePool.Name storagePoolList
    | none => false
  else false

/-- Lines 51-71 of `Matches`: the loop over the requested attributes, started with the
current value of `matches`.  It panics (`none`) on a nil offer map, and leaves with `false`
at the first attribute that is not offered or whose offer does not match. -/
def attributeLoop (om : Offer → Request → Bool) (storagePool : StoragePool Offer) :
    List (String × Request) → Bool → Option Bool
  | [], matching => some matching
  | (name, request) :: rest, matching =>
    match storagePool.Attributes with
    | none => none
    | some offers =>
      match offers.lookup name with
      | some offer =>
        if om offer request then attributeLoop om storagePool rest matching else some false
      | none => some false

/-- The method `StorageClass.Matches`. -/
def StorageClass.Matches (om : Offer → Request → Bool) (s : StorageClass Offer Request)
    (storagePool : StoragePool Offer) : Option Bool :=
  if allowListed s.config storagePool then some true
  else attributeLoop om storagePool s.config.Attributes
    (decide (s.config.Attributes.length > 0))

/-- Modelled from the spec: the method `StoragePool.AddStorageClass` of package `storage`,
which records on the pool side that the pool is claimed by the class name by appending the
name to the pool's back-reference list. -/
def AddStorageClass (h : PoolClasses) (storagePool : StoragePool Offer) (name : String) :
    PoolClasses :=
  h ++ [(storagePool.addr, name)]

/-- The loop of `CheckAndAddBackend` over `b.Storage`, on the class, the pools' class lists
and the counter `added`. -/
def addLoop (om : Offer → Request → Bool) :
    List (StoragePool Offer) → StorageClass Offer Request → PoolClasses → Nat →
      Option (Nat × StorageClass Offer Request × PoolClasses)
  | [], s, h, added => some (added, s, h)
  | storagePool :: rest, s, h, added =>
    match s.Matches om storagePool with
    | none => none
    | some true =>
      addLoop om rest { s with pools := s.pools ++ [storagePool] }
        (AddStorageClass h storagePool s.GetName) (added + 1)
    | some false => addLoop om rest s h added

/-- The method `StorageClass.CheckAndAddBackend`: the returned count, the class afterwards
and the pools' class lists afterwards; `none` when a call of `Matches` panics. -/
def StorageClass.CheckAndAddBackend (om : Offer → Request → Bool)
    (s : StorageClass Offer Request) (b : StorageBackend Offer) (h : PoolClasses) :
    Option (Nat × StorageClass Offer Request × PoolClasses) :=
  if !b.Online then some (0, s, h) else addLoop om b.Storage s h 0

/-- The loop of `RemovePoolsForBackend`: `newStoragePools` after visiting the given pools. -/
def removeLoop (backendAddr : Nat) :
    List (StoragePool Offer) → List (StoragePool Offer) → List (StoragePool Offer)
  | [], newStoragePools => newStoragePools
  | storagePool :: rest, newStoragePools =>
    if storagePool.Backend.addr ≠ backendAddr then
      removeLoop backendAddr rest (newStoragePools ++ [storagePool])
    else removeLoop backendAddr rest newStoragePools

/-- The method `StorageClass.RemovePoolsForBackend`. -/
def StorageClass.RemovePoolsForBackend (s : StorageClass Offer Request)
    (backend : StorageBackend Offer) : StorageClass Offer Request :=
  { s with pools := removeLoop backend.addr s.pools [] }

/-- The inner loop of `GetVolumes` over the volumes of one pool. -/
def volumeLoop (className : String) : List Volume → List Volume → List Volume
  | [], ret => ret
  | vol :: rest, ret =>
    if vol.Config.StorageClass = className then volumeLoop className rest (ret ++ [vol])
    else volumeLoop className rest ret

/-- The outer loop of `GetVolumes` over the member pools. -/
def poolVolumeLoop (className : String) : List (StoragePool Offer) → List Volume → List Volume
  | [], ret => ret
  | storagePool :: rest, ret =>
    poolVolumeLoop className rest (volumeLoop className storagePool.Volumes ret)

/-- The method `StorageClass.GetVolumes`. -/
def StorageClass.GetVolumes (s : StorageClass Offer Request) : List Volume :=
  poolVolumeLoop s.GetName s.pools []

/-- The loop of `GetStoragePoolsForProtocol`; `protocolAny` is `config.ProtocolAny`. -/
def protocolLoop (protocolAny p : Protocol) :
    List (StoragePool Offer) → List (StoragePool Offer) → List (StoragePool Offer)
  | [], ret => ret
  | storagePool :: rest, ret =>
    if p = protocolAny ∨ storagePool.Backend.Protocol = p then
      protocolLoop protocolAny p rest (ret ++ [storagePool])
    else protocolLoop protocolAny p rest ret

/-- The method `StorageClass.GetStoragePoolsForProtocol`. -/
def StorageClass.GetStoragePoolsForProtocol (protocolAny : Protocol)
    (s : StorageClass Offer Request) (p : Protocol) : List (StoragePool Offer) :=
  protocolLoop protocolAny p s.pools []

/-- The first loop of `ConstructExternal`: the pool names grouped by backend name. -/
def groupLoop : List (StoragePool Offer) → List (String × List String) →
    List (String × List String)
  | [], storagePools => storagePools
  | storagePool :: rest, storagePools =>
    match storagePools.lookup storagePool.Backend.Name with
    | some storagePoolList =>
      groupLoop rest
        (mapSet storagePools storagePool.Backend.Name (storagePoolList ++ [storagePool.Name]))
    | none => groupLoop rest (mapSet storagePools storagePool.Backend.Name [storagePool.Name])

/-- The method `StorageClass.ConstructExternal`: the projection returned, and the class
afterwards.  `ret.Config` is the pointer `s.config`, so the in-place sort of the allow-list
entries is seen through both. -/
def StorageClass.ConstructExternal (s : StorageClass Offer Request) :
    StorageClassExternal Request × StorageClass Offer Request :=
  let config : Config Request :=
    { s.config with BackendStoragePools := sortLists s.config.BackendStoragePools }
  ({ Config := config, StoragePools := sortLists (groupLoop s.pools []) },
   { s with config := config })

/-- The method `StorageClassExternal.GetName`. -/
def StorageClassExternal.GetName (s : StorageClassExternal Request) : String :=
  s.Config.Name

/-- The method `StorageClass.ConstructPersistent`: the projection returned, and the class
afterwards (`ret.Config` is the pointer `s.config`). -/
def StorageClass.ConstructPersistent (s : StorageClass Offer Request) :
    StorageClassPersistent Request × StorageClass Offer Request :=
  let config : Config Request :=
    { s.config with BackendStoragePools := sortLists s.config.BackendStoragePools }
  ({ Config := config }, { s with config := config })

/-- The method `StorageClassPersistent.GetName`. -/
def StorageClassPersistent.GetName (s : StorageClassPersistent Request) : String :=
  s.Config.Name

/-- The function `NewFromPersistent`. -/
def NewFromPersistent (apiVersion : String) (persistent : StorageClassPersistent Request) :
    StorageClass Offer Request :=
  New apiVersion persistent.Config

/-- The Go lookup `storagePool.Attributes[name]`, which finds nothing in a nil map. -/
def StoragePool.offer (storagePool : StoragePool Offer) (name : String) : Option Offer :=
  match storagePool.Attributes with
  | none => none
  | some offers => offers.lookup name

/-! ## Example objects

String-valued offers and requests compared for equality, one backend `A` with the pools
`p1` (tier fast) and `p2` (tier slow), and a few classes. -/

/-- A comparator: a string offer matches a string request when they are equal. -/
def exMatch (offer request : String) : Bool := offer == request

/-- The reference to backend `A`, at address 1. -/
def exRefA : BackendRef := { addr := 1, Name := "A", Protocol := "file" }

/-- The reference to another backend that is also named `A`, at address 2. -/
def exRefA2 : BackendRef := { addr := 2, Name := "A", Protocol := "file" }

/-- Pool `p1` of backend `A`, offering tier fast. -/
def exP1 : StoragePool String :=
  { addr := 11, Name := "p1", Backend := exRefA, Attributes := some [("tier", "fast")],
    Volumes := [] }

/-- Pool `p2` of backend `A`, offering tier slow. -/
def exP2 : StoragePool String :=
  { addr := 12, Name := "p2", Backend := exRefA, Attributes := some [("tier", "slow")],
    Volumes := [] }

/-- Pool `p3` of backend `A`, with an initialized map that offers nothing. -/
def exP3 : StoragePool String :=
  { addr := 13, Name := "p3", Backend := exRefA, Attributes := some [], Volumes := [] }

/-- Pool `p4` of backend `A`, whose offer map is nil. -/
def exP4 : StoragePool String :=
  { addr := 14, Name := "p4", Backend := exRefA, Attributes := none, Volumes := [] }

/-- Pool `p1` of the second backend named `A`, offering tier fast. -/
def exQ1 : StoragePool String :=
  { addr := 21, Name := "p1", Backend := exRefA2, Attributes := some [("tier", "fast")],
    Volumes := [] }

/-- Backend `A`, online, exposing `p1` and `p2`. -/
def exBackendA : StorageBackend String :=
  { toBackendRef := exRefA, Online := true, Storage := [exP1, exP2] }

/-- Backend `A` with the same pools, offline. -/
def exBackendAOffline : StorageBackend String :=
  { toBackendRef := exRefA, Online := false, Storage := [exP1, exP2] }

/-- Backend `A`, online, exposing `p1` and the pool `p4` whose offer map is nil. -/
def exBackendANil : StorageBackend String :=
  { toBackendRef := exRefA, Online := true, Storage := [exP1, exP4] }

/-- Backend `A`, online, exposing `p1` twice. -/
def exBackendATwice : StorageBackend String :=
  { toBackendRef := exRefA, Online := true, Storage := [exP1, exP1] }

/-- Class `gold`: attributes tier fast, no allow-list, no member. -/
def exGold : StorageClass String String :=
  { config := { Version := "1", Name := "gold", Attributes := [("tier", "fast")],
                BackendStoragePools := [] },
    pools := [] }

/-- Class `explicit`: no attributes, allow-list `A: [p2, p4]`, no member. -/
def exExplicit : StorageClass String String :=
  { config := { Version := "1", Name := "explicit", Attributes := [],
                BackendStoragePools := [("A", ["p2", "p4"])] },
    pools := [] }

/-- Class `both`: attributes tier fast and allow-list `A: [p3]`, no member. -/
def exBoth : StorageClass String String :=
  { config := { Version := "1", Name := "both", Attributes := [("tier", "fast")],
                BackendStoragePools := [("A", ["p3"])] },
    pools := [] }

/-- Class `empty`: neither attributes nor allow-list, no member. -/
def exEmpty : StorageClass String String :=
  { config := { Version := "1", Name := "empty", Attributes := [], BackendStoragePools := [] },
    pools := [] }

/-- The reference to backend `B`, at address 3, a block backend. -/
def exRefB : BackendRef := { addr := 3, Name := "B", Protocol := "block" }

/-- A volume of the class `gold`. -/
def exV1 : Volume := { addr := 101, Config := { StorageClass := "gold" } }

/-- A volume of the class `silver`. -/
def exV2 : Volume := { addr := 102, Config := { StorageClass := "silver" } }

/-- Pool `r1` of backend `B`, offering tier fast, holding the volumes `v1` and `v2`. -/
def exR1 : StoragePool String :=
  { addr := 31, Name := "r1", Backend := exRefB, Attributes := some [("tier", "fast")],
    Volumes := [exV1, exV2] }

/-- Backend `B`, online, exposing `r1`. -/
def exBackendB : StorageBackend String :=
  { toBackendRef := exRefB, Online := true, Storage := [exR1] }

/-- Class `unsorted`: attributes tier fast and allow-list `A: [p2, p1]`, no member. -/
def exUnsorted : StorageClass String String :=
  { config := { Version := "1", Name := "unsorted", Attributes := [("tier", "fast")],
                BackendStoragePools := [("A", ["p2", "p1"])] },
    pools := [] }

/-! ## Sequences of calls -/

/-- A call that changes the membership of a storage class. -/
inductive Call (Offer : Type) where
  | checkAndAddBackend (b : StorageBackend Offer)
  | removePoolsForBackend (b : StorageBackend Offer)

/-- The class and the pools' class lists after the given calls, made in order from the given
state; `none` when one of the calls panics. -/
def runCalls (om : Offer → Request → Bool) :
    List (Call Offer) → StorageClass Offer Request × PoolClasses →
      Option (StorageClass Offer Request × PoolClasses)
  | [], st => some st
  | Call.checkAndAddBackend b :: rest, st =>
    match st.1.CheckAndAddBackend om b st.2 with
    | none => none
    | some r => runCalls om rest (r.2.1, r.2.2)
  | Call.removePoolsForBackend b :: rest, st =>
    runCalls om rest (st.1.RemovePoolsForBackend b, st.2)

/-- A backend at address 1, online, exposing `q1`, a pool whose backend pointer is the
second backend named `A` (address 2). -/
def exBackendAForeign : StorageBackend String :=
  { toBackendRef := exRefA, Online := true, Storage := [exQ1] }

/-- Whether a call leaves alone the pools owned by the backend at address `a`: a
`CheckAndAddBackend` for a backend that exposes no pool owned by `a`, or a
`RemovePoolsForBackend` for a backend at another address. -/
def Call.avoids (a : Nat) : Call Offer → Bool
  | Call.checkAndAddBackend b => b.Storage.all (fun p => decide (p.Backend.addr ≠ a))
  | Call.removePoolsForBackend b => decide (b.addr ≠ a)

/-! ## `Matches` -/

theorem nameListed_eq_true (poolName : String) (l : List String) :
    nameListed poolName l = true ↔ poolName ∈ l := by
  induction l with
  | nil => simp [nameListed]
  | cons a l ih =>
    by_cases h : a = poolName
    · simp [nameListed, h]
    · have h' : ¬ poolName = a := fun e => h e.symm
      simp [nameListed, h, h', ih]

theorem allowListed_eq_true (c : Config Request) (p : StoragePool Offer) :
    allowListed c p = true ↔
      ∃ l, c.BackendStoragePools.lookup p.Backend.Name = some l ∧ p.Name ∈ l := by
  unfold allowListed
  cases hm : c.BackendStoragePools with
  | nil => simp
  | cons e m =>
    cases hl : List.lookup p.Backend.Name (e :: m) with
    | none => simp
    | some l => simp [nameListed_eq_true]

theorem attributeLoop_of_some (om : Offer → Request → Bool) (p : StoragePool Offer)
    (offers : List (String × Offer)) (hp : p.Attributes = some offers)
    (attrs : List (String × Request)) (b : Bool) :
    ∃ r, attributeLoop om p attrs b = some r ∧
      (r = true ↔ (b = true ∧
        ∀ e ∈ attrs, ∃ offer, offers.lookup e.1 = some offer ∧ om offer e.2 = true)) := by
  induction attrs with
  | nil => exact ⟨b, by simp [attributeLoop]⟩
  | cons e attrs ih =>
    obtain ⟨name, request⟩ := e
    cases hl : offers.lookup name with
    | none => exact ⟨false, by simp [attributeLoop, hp, hl]⟩
    | some offer =>
      by_cases ho : om offer request = true
      · obtain ⟨r, hr, hiff⟩ := ih
        exact ⟨r, by simp [attributeLoop, hp, hl, ho, hr], by simp [hiff, hl, ho]⟩
      · exact ⟨false, by simp [attributeLoop, hp, hl, ho]⟩

theorem matches_of_initialized (om : Offer → Request → Bool) (s : StorageClass Offer Request)
    (p : StoragePool Offer) (offers : List (String × Offer))
    (hp : p.Attributes = some offers) :
    ∃ r, s.Matches om p = some r ∧
      (r = true ↔
        ((∃ l, s.config.BackendStoragePools.lookup p.Backend.Name = some l ∧ p.Name ∈ l) ∨
         (s.config.Attributes ≠ [] ∧
          ∀ e ∈ s.config.Attributes,
            ∃ offer, offers.lookup e.1 = some offer ∧ om offer e.2 = true))) := by
  unfold StorageClass.Matches
  by_cases ha : allowListed s.config p = true
  · exact ⟨true, by simp [ha], by simp [(allowListed_eq_true s.config p).1 ha]⟩
  · obtain ⟨r, hr, hiff⟩ := attributeLoop_of_some om p offers hp s.config.Attributes
      (decide (s.config.Attributes.length > 0))
    refine ⟨r, by simp [ha, hr], ?_⟩
    have hno : ¬ ∃ l, s.config.BackendStoragePools.lookup p.Backend.Name = some l ∧
        p.Name ∈ l := fun h => ha ((allowListed_eq_true s.config p).2 h)
    rw [hiff]
    simp only [hno, false_or, decide_eq_true_eq, List.length_pos]

/-- Claim C1.  For a pool whose offer map is initialized, `Matches` returns a boolean, and
it returns `true` exactly when the allow-list has an entry for the pool's backend name that
contains the pool's name, or the class's attributes are non-empty and every requested
attribute is offered by the pool with an offer that matches the request. -/
theorem matches_iff (om : Offer → Request → Bool) (s : StorageClass Offer Request)
    (p : StoragePool Offer) (offers : List (String × Offer))
    (hp : p.Attributes = some offers) :
    ∃ r, s.Matches om p = some r ∧
      (r = true ↔
        ((∃ l, s.config.BackendStoragePools.lookup p.Backend.Name = some l ∧ p.Name ∈ l) ∨
         (s.config.Attributes ≠ [] ∧
          ∀ e ∈ s.config.Attributes,
            ∃ offer, offers.lookup e.1 = some offer ∧ om offer e.2 = true))) :=
  matches_of_initialized om s p offers hp

/-- The pool `p1` (tier fast) and the class `gold` (tier fast): the offer map is initialized,
so C1 applies. -/
theorem matches_iff_witness :
    exP1.Attributes = some [("tier", "fast")] ∧
    ∃ r, exGold.Matches exMatch exP1 = some r ∧
      (r = true ↔
        ((∃ l, exGold.config.BackendStoragePools.lookup exP1.Backend.Name = some l ∧
            exP1.Name ∈ l) ∨
         (exGold.config.Attributes ≠ [] ∧
          ∀ e ∈ exGold.config.Attributes,
            ∃ offer, List.lookup e.1 [("tier", "fast")] = some offer ∧
              exMatch offer e.2 = true))) :=
  ⟨rfl, matches_iff exMatch exGold exP1 [("tier", "fast")] rfl⟩

/-- Claim C2.  When the allow-list has an entry for the pool's backend name that contains the
pool's name, `Matches` returns `true`, whatever the class's attributes (empty or not) and
whatever the pool's offer map (nil or not). -/
theorem matches_of_allowListed (om : Offer → Request → Bool) (s : StorageClass Offer Request)
    (p : StoragePool Offer) (l : List String)
    (hl : s.config.BackendStoragePools.lookup p.Backend.Name = some l) (hmem : p.Name ∈ l) :
    s.Matches om p = some true := by
  have ha : allowListed s.config p = true := (allowListed_eq_true s.config p).2 ⟨l, hl, hmem⟩
  simp [StorageClass.Matches, ha]

/-- The class `explicit` has no attributes and lists `p4` under `A`; the pool `p4` has a nil
offer map, and matches. -/
theorem matches_of_allowListed_witness :
    exExplicit.config.BackendStoragePools.lookup exP4.Backend.Name = some ["p2", "p4"] ∧
    exP4.Name ∈ ["p2", "p4"] ∧ exExplicit.config.Attributes = [] ∧ exP4.Attributes = none ∧
    exExplicit.Matches exMatch exP4 = some true :=
  ⟨rfl, by decide, rfl, rfl,
    matches_of_allowListed exMatch exExplicit exP4 ["p2", "p4"] rfl (by decide)⟩

/-- Claim C3.  A class whose allow-list and attributes are both empty matches no pool:
`Matches` returns `false` for every pool. -/
theorem matches_of_empty (om : Offer → Request → Bool) (s : StorageClass Offer Request)
    (p : StoragePool Offer) (hallow : s.config.BackendStoragePools = [])
    (hattrs : s.config.Attributes = []) :
    s.Matches om p = some false := by
  simp [StorageClass.Matches, allowListed, attributeLoop, hallow, hattrs]

/-- The class `empty` and the pool `p1`. -/
theorem matches_of_empty_witness :
    exEmpty.config.BackendStoragePools = [] ∧ exEmpty.config.Attributes = [] ∧
    exEmpty.Matches exMatch exP1 = some false :=
  ⟨rfl, rfl, matches_of_empty exMatch exEmpty exP1 rfl rfl⟩

/-- Claim C4, refuted as stated.  The class `both` requires the attribute `tier`, which the
pool `p3` (initialized, empty offer map) does not offer, yet `Matches` returns `true`,
because `p3` is on the allow-list.  The class `gold` requires `tier`, which the pool `p4`
(nil offer map) does not offer, and `Matches` panics instead of returning `false`. -/
theorem matches_missing_attribute_counterexample :
    (exBoth.config.Attributes ≠ [] ∧
      (∃ e ∈ exBoth.config.Attributes, exP3.offer e.1 = none) ∧
      exBoth.Matches exMatch exP3 = some true) ∧
    (exGold.config.Attributes ≠ [] ∧
      (∃ e ∈ exGold.config.Attributes, exP4.offer e.1 = none) ∧
      exGold.Matches exMatch exP4 = none) :=
  ⟨⟨by decide, ⟨("tier", "fast"), by decide, rfl⟩, rfl⟩,
   ⟨by decide, ⟨("tier", "fast"), by decide, rfl⟩, rfl⟩⟩

/-- Claim C4, amended.  For a class with non-empty attributes, a pool whose offer map is
initialized, that is not named in the allow-list under its backend name, and that does not
offer at least one of the required attribute names: `Matches` returns `false`. -/
theorem matches_missing_attribute (om : Offer → Request → Bool)
    (s : StorageClass Offer Request) (p : StoragePool Offer)
    (offers : List (String × Offer)) (_hattrs : s.config.Attributes ≠ [])
    (hp : p.Attributes = some offers)
    (hallow : ¬ ∃ l, s.config.BackendStoragePools.lookup p.Backend.Name = some l ∧
      p.Name ∈ l)
    (hmiss : ∃ e ∈ s.config.Attributes, p.offer e.1 = none) :
    s.Matches om p = some false := by
  obtain ⟨r, hr, hiff⟩ := matches_of_initialized om s p offers hp
  cases r with
  | false => exact hr
  | true =>
    exfalso
    rcases hiff.1 rfl with h | ⟨_, h⟩
    · exact hallow h
    · obtain ⟨e, he, hnone⟩ := hmiss
      obtain ⟨offer, ho, _⟩ := h e he
      simp [StoragePool.offer, hp, ho] at hnone

/-- The class `gold` requires `tier`; the pool `p3` has an initialized offer map without
`tier` and `gold` has no allow-list. -/
theorem matches_missing_attribute_witness :
    exGold.config.Attributes ≠ [] ∧ exP3.Attributes = some [] ∧
    (¬ ∃ l, exGold.config.BackendStoragePools.lookup exP3.Backend.Name = some l ∧
      exP3.Name ∈ l) ∧
    (∃ e ∈ exGold.config.Attributes, exP3.offer e.1 = none) ∧
    exGold.Matches exMatch exP3 = some false :=
  ⟨by decide, rfl, by simp [exGold], ⟨("tier", "fast"), by decide, rfl⟩,
    matches_missing_attribute exMatch exGold exP3 [] (by decide) rfl (by simp [exGold])
      ⟨("tier", "fast"), by decide, rfl⟩⟩

/-! ## `CheckAndAddBackend` -/

theorem addLoop_eq (om : Offer → Request → Bool) (c : Config Request)
    (l : List (StoragePool Offer)) :
    ∀ (ps : List (StoragePool Offer)) (h : PoolClasses) (added : Nat),
      (∀ p ∈ l, StorageClass.Matches om { config := c, pools := [] } p ≠ none) →
      addLoop om l { config := c, pools := ps } h added =
        some (added + (l.filter (fun p =>
                StorageClass.Matches om { config := c, pools := [] } p = some true)).length,
              { config := c,
                pools := ps ++ l.filter (fun p =>
                  StorageClass.Matches om { config := c, pools := [] } p = some true) },
              h ++ (l.filter (fun p =>
                StorageClass.Matches om { config := c, pools := [] } p = some true)).map
                  (fun p => (p.addr, c.Name))) := by
  induction l with
  | nil => intro ps h added _; simp [addLoop]
  | cons q l ih =>
    intro ps h added hok
    have hq := hok q (List.mem_cons_self q l)
    have hl : ∀ p ∈ l, StorageClass.Matches om { config := c, pools := [] } p ≠ none :=
      fun p hp => hok p (List.mem_cons_of_mem q hp)
    have hcfg : StorageClass.Matches om { config := c, pools := ps } q =
        StorageClass.Matches om { config := c, pools := [] } q := rfl
    cases hm : StorageClass.Matches om { config := c, pools := [] } q with
    | none => exact absurd hm hq
    | some r =>
      cases r with
      | true =>
        rw [addLoop, hcfg, hm]
        simp only [ih _ _ _ hl, List.filter_cons, hm, decide_True, if_true,
          List.length_cons, List.map_cons, AddStorageClass, StorageClass.GetName,
          List.append_assoc, List.singleton_append]
        congr 2
        omega
      | false =>
        rw [addLoop, hcfg, hm]
        simp [ih _ _ _ hl, List.filter_cons, hm]

theorem checkAndAddBackend_eq (om : Offer → Request → Bool) (s : StorageClass Offer Request)
    (b : StorageBackend Offer) (h : PoolClasses) (hon : b.Online = true)
    (hok : ∀ p ∈ b.Storage, s.Matches om p ≠ none) :
    s.CheckAndAddBackend om b h =
      some ((b.Storage.filter (fun p => s.Matches om p = some true)).length,
            { s with pools := s.pools ++ b.Storage.filter (fun p => s.Matches om p = some true) },
            h ++ (b.Storage.filter (fun p => s.Matches om p = some true)).map
              (fun p => (p.addr, s.GetName))) := by
  obtain ⟨c, ps⟩ := s
  have := addLoop_eq om c b.Storage ps h 0 hok
  simp only [StorageClass.CheckAndAddBackend, hon, Bool.not_true, Bool.false_eq_true, if_false]
  rw [this]
  simp only [Nat.zero_add, StorageClass.GetName]
  rfl

/-- Claim C5, refuted as stated.  The class `gold` requires `tier`; the online backend
exposes `p1` and the pool `p4` whose offer map is nil: `Matches` panics on `p4`, so
`CheckAndAddBackend` returns no count. -/
theorem checkAndAddBackend_counterexample :
    exBackendANil.Online = true ∧
    exGold.CheckAndAddBackend exMatch exBackendANil [] = none :=
  ⟨rfl, rfl⟩

/-- Claim C5, amended.  For an online backend on none of whose pools `Matches` panics,
`CheckAndAddBackend` returns the number of the backend's pools for which `Matches` is true,
the membership afterwards is the membership before followed by exactly those pools in the
backend's order (its length grows by the returned count), the configuration is unchanged,
and each of those pools has the class name appended to its class list. -/
theorem checkAndAddBackend_online (om : Offer → Request → Bool)
    (s : StorageClass Offer Request) (b : StorageBackend Offer) (h : PoolClasses)
    (hon : b.Online = true) (hok : ∀ p ∈ b.Storage, s.Matches om p ≠ none) :
    ∃ (n : Nat) (s' : StorageClass Offer Request) (h' : PoolClasses),
      s.CheckAndAddBackend om b h = some (n, s', h') ∧
      n = (b.Storage.filter (fun p => s.Matches om p = some true)).length ∧
      s'.pools = s.pools ++ b.Storage.filter (fun p => s.Matches om p = some true) ∧
      s'.pools.length = s.pools.length + n ∧
      s'.config = s.config ∧
      h' = h ++ (b.Storage.filter (fun p => s.Matches om p = some true)).map
        (fun p => (p.addr, s.GetName)) :=
  ⟨_, _, _, checkAndAddBackend_eq om s b h hon hok, rfl, rfl, by simp, rfl, rfl⟩

/-- The scenario of the specification: class `gold` (tier fast) and the online backend `A`
with `p1` (tier fast) and `p2` (tier slow): the call returns 1 and the membership becomes
`[p1]`. -/
theorem checkAndAddBackend_online_witness :
    exBackendA.Online = true ∧
    (∀ p ∈ exBackendA.Storage, exGold.Matches exMatch p ≠ none) ∧
    ∃ (n : Nat) (s' : StorageClass String String) (h' : PoolClasses),
      exGold.CheckAndAddBackend exMatch exBackendA [] = some (n, s', h') ∧
      n = 1 ∧ s'.pools = [exP1] ∧ s'.pools.length = 0 + n ∧
      s'.config = exGold.config ∧ h' = [(11, "gold")] :=
  ⟨rfl, by decide,
    checkAndAddBackend_online exMatch exGold exBackendA [] rfl (by decide)⟩

theorem checkAndAddBackend_offline_eq (om : Offer → Request → Bool)
    (s : StorageClass Offer Request) (b : StorageBackend Offer) (h : PoolClasses)
    (hoff : b.Online = false) :
    s.CheckAndAddBackend om b h = some (0, s, h) := by
  simp [StorageClass.CheckAndAddBackend, hoff]

/-- Claim C6.  For an offline backend, `CheckAndAddBackend` returns 0 and leaves the class
(its membership and configuration) and the pools' class lists unchanged, whatever pools the
backend exposes. -/
theorem checkAndAddBackend_offline (om : Offer → Request → Bool)
    (s : StorageClass Offer Request) (b : StorageBackend Offer) (h : PoolClasses)
    (hoff : b.Online = false) :
    s.CheckAndAddBackend om b h = some (0, s, h) := by
  simp [StorageClass.CheckAndAddBackend, hoff]

/-- The offline backend `A` exposes `p1`, which the class `gold` matches; nothing is added. -/
theorem checkAndAddBackend_offline_witness :
    exBackendAOffline.Online = false ∧ exGold.Matches exMatch exP1 = some true ∧
    exP1 ∈ exBackendAOffline.Storage ∧
    exGold.CheckAndAddBackend exMatch exBackendAOffline [] = some (0, exGold, []) :=
  ⟨rfl, rfl, by decide,
    checkAndAddBackend_offline exMatch exGold exBackendAOffline [] rfl⟩

/-! ## `RemovePoolsForBackend` -/

theorem removeLoop_eq (a : Nat) (l : List (StoragePool Offer)) :
    ∀ acc : List (StoragePool Offer),
      removeLoop a l acc = acc ++ l.filter (fun p => p.Backend.addr ≠ a) := by
  induction l with
  | nil => intro acc; simp [removeLoop]
  | cons q l ih =>
    intro acc
    by_cases hq : q.Backend.addr = a
    · simp [removeLoop, hq, ih]
    · simp [removeLoop, hq, ih]

theorem removePoolsForBackend_pools (s : StorageClass Offer Request)
    (b : StorageBackend Offer) :
    (s.RemovePoolsForBackend b).pools = s.pools.filter (fun p => p.Backend.addr ≠ b.addr) := by
  simp [StorageClass.RemovePoolsForBackend, removeLoop_eq]

/-- Claim C7.  After `RemovePoolsForBackend(b)` the membership is the sub-list of the previous
membership made of the pools whose backend pointer is not `b`, in their previous order, and
the configuration is unchanged.  So no remaining member is owned by `b`; a member owned by
another backend is kept, also when that backend has the name of `b`; and when no member is
owned by `b` the membership is unchanged. -/
theorem removePoolsForBackend_spec (s : StorageClass Offer Request)
    (b : StorageBackend Offer) :
    (s.RemovePoolsForBackend b).pools = s.pools.filter (fun p => p.Backend.addr ≠ b.addr) ∧
    (s.RemovePoolsForBackend b).config = s.config ∧
    List.Sublist (s.RemovePoolsForBackend b).pools s.pools ∧
    (∀ p ∈ (s.RemovePoolsForBackend b).pools, p.Backend.addr ≠ b.addr) ∧
    (∀ p ∈ s.pools, p.Backend.addr ≠ b.addr → p.Backend.Name = b.Name →
      p ∈ (s.RemovePoolsForBackend b).pools) ∧
    (∀ p ∈ s.pools, p.Backend.addr ≠ b.addr → p ∈ (s.RemovePoolsForBackend b).pools) ∧
    ((∀ p ∈ s.pools, p.Backend.addr ≠ b.addr) → (s.RemovePoolsForBackend b).pools = s.pools) := by
  rw [removePoolsForBackend_pools]
  refine ⟨rfl, rfl, List.filter_sublist _, ?_, ?_, ?_, ?_⟩
  · intro p hp
    simpa using (List.mem_filter.1 hp).2
  · intro p hp hne _
    exact List.mem_filter.2 ⟨hp, by simpa using hne⟩
  · intro p hp hne
    exact List.mem_filter.2 ⟨hp, by simpa using hne⟩
  · intro hall
    exact List.filter_eq_self.2 (fun p hp => by simpa using hall p hp)

/-- The membership `[p1, q1, p2]`, where `q1` belongs to a second backend that is also named
`A`: removing backend `A` (address 1) leaves `[q1]`. -/
theorem removePoolsForBackend_spec_witness :
    exQ1.Backend.Name = exBackendA.Name ∧
    (StorageClass.RemovePoolsForBackend { exGold with pools := [exP1, exQ1, exP2] }
      exBackendA).pools = [exQ1] :=
  ⟨rfl, (removePoolsForBackend_spec { exGold with pools := [exP1, exQ1, exP2] } exBackendA).1⟩

/-! ## Sequences of `RemovePoolsForBackend` and `CheckAndAddBackend` -/

theorem filter_owned_perm (a : Nat) (l : List (StoragePool Offer)) :
    (l.filter (fun p => p.Backend.addr ≠ a) ++ l.filter (fun p => p.Backend.addr = a)).Perm l := by
  have h := List.filter_append_perm (fun p : StoragePool Offer => decide (p.Backend.addr ≠ a)) l
  simpa using h

/-- Claim C9, refuted as stated.  With the class `gold`, the first call for the online backend
exposing `p1` and the nil-map pool `p4` panics and returns no count; and for the online
backend exposing `p1` twice, both calls return 2 and `p1` occurs twice more, not once more,
after the second call. -/
theorem checkAndAddBackend_twice_counterexample :
    (exBackendANil.Online = true ∧ exGold.Matches exMatch exP4 = none ∧
      exGold.CheckAndAddBackend exMatch exBackendANil [] = none) ∧
    (exBackendATwice.Online = true ∧ exGold.Matches exMatch exP1 = some true ∧
      ∃ (s1 s2 : StorageClass String String) (h1 h2 : PoolClasses),
        exGold.CheckAndAddBackend exMatch exBackendATwice [] = some (2, s1, h1) ∧
        s1.CheckAndAddBackend exMatch exBackendATwice h1 = some (2, s2, h2) ∧
        s1.pools.count exP1 = 2 ∧ s2.pools.count exP1 = 4) :=
  ⟨⟨rfl, rfl, rfl⟩, ⟨rfl, rfl, _, _, _, _, rfl, rfl, by decide, by decide⟩⟩

/-- Claim C9, amended.  For an online backend on none of whose pools `Matches` panics, two
calls of `CheckAndAddBackend` with no removal in between return the same count, the
membership length grows by that count on each call, and nothing is de-duplicated: the second
call appends the matching pools again, so that every matching pool occurs as many times
more as the backend exposes it, once more when the backend exposes it once. -/
theorem checkAndAddBackend_twice [DecidableEq Offer] (om : Offer → Request → Bool)
    (s : StorageClass Offer Request) (b : StorageBackend Offer) (h : PoolClasses)
    (hon : b.Online = true) (hok : ∀ p ∈ b.Storage, s.Matches om p ≠ none) :
    ∃ (n : Nat) (s1 s2 : StorageClass Offer Request) (h1 h2 : PoolClasses),
      s.CheckAndAddBackend om b h = some (n, s1, h1) ∧
      s1.CheckAndAddBackend om b h1 = some (n, s2, h2) ∧
      n = (b.Storage.filter (fun p => s.Matches om p = some true)).length ∧
      s1.pools.length = s.pools.length + n ∧
      s2.pools.length = s1.pools.length + n ∧
      s2.pools = s1.pools ++ b.Storage.filter (fun p => s.Matches om p = some true) ∧
      (∀ p, s.Matches om p = some true →
        s2.pools.count p = s1.pools.count p + b.Storage.count p) ∧
      (∀ p, s.Matches om p = some true → b.Storage.count p = 1 →
        s2.pools.count p = s1.pools.count p + 1) := by
  have h1 := checkAndAddBackend_eq om s b h hon hok
  have h2 : StorageClass.CheckAndAddBackend om
      { s with pools := s.pools ++ b.Storage.filter (fun p => s.Matches om p = some true) } b
      (h ++ (b.Storage.filter (fun p => s.Matches om p = some true)).map
        (fun p => (p.addr, s.GetName))) =
      some ((b.Storage.filter (fun p => s.Matches om p = some true)).length,
        { s with pools := s.pools ++ b.Storage.filter (fun p => s.Matches om p = some true) ++
            b.Storage.filter (fun p => s.Matches om p = some true) },
        h ++ (b.Storage.filter (fun p => s.Matches om p = some true)).map
            (fun p => (p.addr, s.GetName)) ++
          (b.Storage.filter (fun p => s.Matches om p = some true)).map
            (fun p => (p.addr, s.GetName))) :=
    checkAndAddBackend_eq om
      { s with pools := s.pools ++ b.Storage.filter (fun p => s.Matches om p = some true) } b
      (h ++ (b.Storage.filter (fun p => s.Matches om p = some true)).map
        (fun p => (p.addr, s.GetName))) hon hok
  have hcount : ∀ p, s.Matches om p = some true →
      (s.pools ++ b.Storage.filter (fun p => s.Matches om p = some true) ++
        b.Storage.filter (fun p => s.Matches om p = some true)).count p =
      (s.pools ++ b.Storage.filter (fun p => s.Matches om p = some true)).count p +
        b.Storage.count p := by
    intro p hp
    rw [List.count_append, List.count_filter (by simpa using hp)]
  refine ⟨_, _, _, _, _, h1, h2, rfl, by simp, by simp [Nat.add_assoc], rfl, hcount, ?_⟩
  intro p hp hone
  have := hcount p hp
  rw [hone] at this
  exact this

/-- The class `gold` and the online backend `A` exposing `p1` and `p2` once each: both calls
return 1 and the membership becomes `[p1]` and then `[p1, p1]`. -/
theorem checkAndAddBackend_twice_witness :
    exBackendA.Online = true ∧
    (∀ p ∈ exBackendA.Storage, exGold.Matches exMatch p ≠ none) ∧
    ∃ (n : Nat) (s1 s2 : StorageClass String String) (h1 h2 : PoolClasses),
      exGold.CheckAndAddBackend exMatch exBackendA [] = some (n, s1, h1) ∧
      s1.CheckAndAddBackend exMatch exBackendA h1 = some (n, s2, h2) ∧
      n = 1 ∧ s1.pools = [exP1] ∧ s2.pools = [exP1, exP1] :=
  ⟨rfl, by decide, by
    obtain ⟨n, s1, s2, h1, h2, e1, e2, hn, _, _, hpools, _, _⟩ :=
      checkAndAddBackend_twice exMatch exGold exBackendA [] rfl (by decide)
    have e0 : exGold.CheckAndAddBackend exMatch exBackendA [] =
        some (1, { exGold with pools := [exP1] }, [(11, "gold")]) := rfl
    rw [e0] at e1
    simp only [Option.some.injEq, Prod.mk.injEq] at e1
    obtain ⟨rfl, rfl, rfl⟩ := e1
    exact ⟨1, _, s2, _, h2, rfl, e2, rfl, rfl, hpools⟩⟩

/-! ## Go maps as entry lists -/

theorem lookup_mapSet_self {V : Type} (m : List (String × V)) (k : String) (v : V) :
    (mapSet m k v).lookup k = some v := by
  induction m with
  | nil => simp [mapSet, List.lookup_cons]
  | cons e m ih =>
    obtain ⟨k', v'⟩ := e
    by_cases hk : k' = k
    · simp [mapSet, hk, List.lookup_cons]
    · have hk' : (k == k') = false := by simpa using fun e => hk e.symm
      simp [mapSet, hk, List.lookup_cons, hk', ih]

theorem lookup_mapSet_ne {V : Type} (m : List (String × V)) (k k0 : String) (v : V)
    (hne : k0 ≠ k) : (mapSet m k v).lookup k0 = m.lookup k0 := by
  induction m with
  | nil =>
    have h0 : (k0 == k) = false := by simpa using hne
    simp [mapSet, List.lookup_cons, h0]
  | cons e m ih =>
    obtain ⟨k', v'⟩ := e
    by_cases hk : k' = k
    · subst hk
      have h0 : (k0 == k') = false := by simpa using hne
      simp [mapSet, List.lookup_cons, h0]
    · by_cases h1 : k0 = k'
      · simp [mapSet, hk, List.lookup_cons, h1]
      · have h0 : (k0 == k') = false := by simpa using h1
        simp [mapSet, hk, List.lookup_cons, h0, ih]

theorem keys_mapSet {V : Type} (m : List (String × V)) (k : String) (v : V) :
    (mapSet m k v).map Prod.fst =
      if k ∈ m.map Prod.fst then m.map Prod.fst else m.map Prod.fst ++ [k] := by
  induction m with
  | nil => simp [mapSet]
  | cons e m ih =>
    obtain ⟨k', v'⟩ := e
    by_cases hk : k' = k
    · simp [mapSet, hk]
    · have hk' : ¬ k = k' := fun e => hk e.symm
      by_cases hmem : k ∈ m.map Prod.fst
      · simp only [mapSet, hk, if_false, List.map_cons, ih, hmem, if_true, List.mem_cons,
          or_true]
      · simp only [mapSet, hk, if_false, List.map_cons, ih, hmem, List.mem_cons, hk',
          or_self, List.cons_append]

theorem nodup_keys_mapSet {V : Type} (m : List (String × V)) (k : String) (v : V)
    (hm : (m.map Prod.fst).Nodup) : ((mapSet m k v).map Prod.fst).Nodup := by
  rw [keys_mapSet]
  by_cases hmem : k ∈ m.map Prod.fst
  · simpa [hmem] using hm
  · rw [if_neg hmem]
    exact List.Nodup.append hm (List.nodup_singleton k) (by simpa using hmem)

theorem mem_of_lookup_eq_some {V : Type} (m : List (String × V)) (k : String) (v : V)
    (h : m.lookup k = some v) : (k, v) ∈ m := by
  induction m with
  | nil => simp at h
  | cons e m ih =>
    obtain ⟨k', v'⟩ := e
    by_cases hk : k = k'
    · subst hk
      simp [List.lookup_cons] at h
      simp [h]
    · have h0 : (k == k') = false := by simpa using hk
      simp only [List.lookup_cons, h0] at h
      exact List.mem_cons_of_mem _ (ih h)

theorem lookup_eq_some_of_mem {V : Type} (m : List (String × V)) (k : String) (v : V)
    (hm : (m.map Prod.fst).Nodup) (h : (k, v) ∈ m) : m.lookup k = some v := by
  induction m with
  | nil => simp at h
  | cons e m ih =>
    obtain ⟨k', v'⟩ := e
    simp only [List.map_cons, List.nodup_cons] at hm
    rcases List.mem_cons.1 h with heq | hmem
    · simp only [Prod.mk.injEq] at heq
      obtain ⟨rfl, rfl⟩ := heq
      simp [List.lookup_cons]
    · have hk : k ≠ k' := by
        rintro rfl
        exact hm.1 (List.mem_map.2 ⟨(k, v), hmem, rfl⟩)
      have h0 : (k == k') = false := by simpa using hk
      simp only [List.lookup_cons, h0]
      exact ih hm.2 hmem

theorem mem_keys_iff_lookup {V : Type} (m : List (String × V)) (k : String) :
    k ∈ m.map Prod.fst ↔ ∃ v, m.lookup k = some v := by
  induction m with
  | nil => simp
  | cons e m ih =>
    obtain ⟨k', v'⟩ := e
    by_cases hk : k = k'
    · subst hk
      simp [List.lookup_cons]
    · have h0 : (k == k') = false := by simpa using hk
      simp only [List.map_cons, List.mem_cons, hk, false_or, List.lookup_cons, h0]
      exact ih

/-! ## `sort.Strings` -/

theorem stringLE_iff (a b : String) : stringLE a b ↔ a ≤ b :=
  String.le_iff_toList_le.symm

theorem stringLE_total (a b : String) : stringLE a b ∨ stringLE b a := by
  simpa [stringLE_iff] using le_total a b

theorem stringLE_trans (a b c : String) (hab : stringLE a b) (hbc : stringLE b c) :
    stringLE a c := by
  rw [stringLE_iff] at *
  exact le_trans hab hbc

theorem sortStrings_sorted (l : List String) :
    List.Sorted (fun a b : String => a ≤ b) (sortStrings l) := by
  haveI : IsTotal String stringLE := ⟨stringLE_total⟩
  haveI : IsTrans String stringLE := ⟨stringLE_trans⟩
  have h := List.sorted_insertionSort stringLE l
  exact List.Pairwise.imp (fun {a b} hab => (stringLE_iff a b).1 hab) h

theorem sortStrings_perm (l : List String) : (sortStrings l).Perm l :=
  List.perm_insertionSort stringLE l

theorem keys_sortLists (m : List (String × List String)) :
    (sortLists m).map Prod.fst = m.map Prod.fst := by
  simp [sortLists, List.map_map, Function.comp_def]

theorem mem_sortLists (m : List (String × List String)) (e : String × List String)
    (h : e ∈ sortLists m) : ∃ e0 ∈ m, e.1 = e0.1 ∧ e.2 = sortStrings e0.2 := by
  obtain ⟨e0, he0, rfl⟩ := List.mem_map.1 h
  exact ⟨e0, he0, rfl, rfl⟩

/-! ## `ConstructExternal` -/

theorem groupLoop_cons (p : StoragePool Offer) (ps : List (StoragePool Offer))
    (m : List (String × List String)) :
    groupLoop (p :: ps) m =
      groupLoop ps (mapSet m p.Backend.Name ((m.lookup p.Backend.Name).getD [] ++ [p.Name])) := by
  cases hl : m.lookup p.Backend.Name with
  | none => simp [groupLoop, hl]
  | some l => simp [groupLoop, hl]

theorem nodup_keys_groupLoop (ps : List (StoragePool Offer)) :
    ∀ m : List (String × List String), (m.map Prod.fst).Nodup →
      ((groupLoop ps m).map Prod.fst).Nodup := by
  induction ps with
  | nil => intro m hm; simpa [groupLoop] using hm
  | cons p ps ih =>
    intro m hm
    rw [groupLoop_cons]
    exact ih _ (nodup_keys_mapSet m _ _ hm)

theorem lookup_groupLoop (ps : List (StoragePool Offer)) :
    ∀ (m : List (String × List String)) (k : String),
      (groupLoop ps m).lookup k =
        match m.lookup k with
        | some l => some (l ++ (ps.filter (fun p => p.Backend.Name = k)).map (fun p => p.Name))
        | none =>
          if (ps.filter (fun p => p.Backend.Name = k)).map (fun p => p.Name) = [] then none
          else some ((ps.filter (fun p => p.Backend.Name = k)).map (fun p => p.Name)) := by
  induction ps with
  | nil =>
    intro m k
    cases hl : m.lookup k <;> simp [groupLoop, hl]
  | cons p ps ih =>
    intro m k
    rw [groupLoop_cons, ih]
    by_cases hk : p.Backend.Name = k
    · subst hk
      rw [lookup_mapSet_self]
      cases hl : m.lookup p.Backend.Name <;> simp [List.filter_cons]
    · have hk' : k ≠ p.Backend.Name := fun e => hk e.symm
      rw [lookup_mapSet_ne _ _ _ _ hk']
      simp [List.filter_cons, hk]

/-- Claim C10.  The `StoragePools` mapping returned by `ConstructExternal` has one entry per
key; its keys are exactly the backend names of the member pools; the list under each backend
name is in increasing order and is a permutation (duplicates kept) of the names of the member
pools whose backend has that name; and every allow-list entry of the returned `Config` is in
increasing order. -/
theorem constructExternal_spec (s : StorageClass Offer Request) :
    (s.ConstructExternal.1.StoragePools.map Prod.fst).Nodup ∧
    (∀ k, k ∈ s.ConstructExternal.1.StoragePools.map Prod.fst ↔
      ∃ p ∈ s.pools, p.Backend.Name = k) ∧
    (∀ e ∈ s.ConstructExternal.1.StoragePools,
      List.Sorted (fun a b : String => a ≤ b) e.2 ∧
      e.2.Perm ((s.pools.filter (fun p => p.Backend.Name = e.1)).map (fun p => p.Name))) ∧
    (∀ e ∈ s.ConstructExternal.1.Config.BackendStoragePools,
      List.Sorted (fun a b : String => a ≤ b) e.2) := by
  have hnodup : ((groupLoop s.pools []).map Prod.fst).Nodup :=
    nodup_keys_groupLoop s.pools [] (by simp)
  have hlook := lookup_groupLoop s.pools [] 
  simp only [List.lookup_nil] at hlook
  refine ⟨?_, ?_, ?_, ?_⟩
  · show ((sortLists (groupLoop s.pools [])).map Prod.fst).Nodup
    rw [keys_sortLists]
    exact hnodup
  · intro k
    show k ∈ (sortLists (groupLoop s.pools [])).map Prod.fst ↔ _
    rw [keys_sortLists, mem_keys_iff_lookup, hlook]
    by_cases hnames :
        (s.pools.filter (fun p => p.Backend.Name = k)).map (fun p => p.Name) = []
    · simp only [hnames, if_true, exists_const, false_iff, reduceCtorEq]
      rintro ⟨p, hp, hpk⟩
      simp only [List.map_eq_nil_iff, List.filter_eq_nil_iff, decide_eq_true_eq] at hnames
      exact hnames p hp hpk
    · simp only [hnames, if_false, Option.some.injEq, exists_eq', true_iff]
      simp only [List.map_eq_nil_iff, List.filter_eq_nil_iff, decide_eq_true_eq,
        not_forall, not_not] at hnames
      obtain ⟨p, hp, hpk⟩ := hnames
      exact ⟨p, hp, hpk⟩
  · intro e he
    obtain ⟨e0, he0, h1, h2⟩ := mem_sortLists _ e he
    have hl := lookup_eq_some_of_mem _ e0.1 e0.2 hnodup he0
    rw [hlook] at hl
    have hnames : e0.2 =
        (s.pools.filter (fun p => p.Backend.Name = e0.1)).map (fun p => p.Name) := by
      by_cases hn :
          (s.pools.filter (fun p => p.Backend.Name = e0.1)).map (fun p => p.Name) = []
      · simp [hn] at hl
      · simp only [hn, if_false, Option.some.injEq] at hl
        exact hl.symm
    rw [h2, h1]
    refine ⟨sortStrings_sorted _, ?_⟩
    have hperm := sortStrings_perm e0.2
    rw [← hnames]
    exact hperm
  · intro e he
    obtain ⟨e0, _, _, h2⟩ := mem_sortLists s.config.BackendStoragePools e he
    rw [h2]
    exact sortStrings_sorted _

/-! ## Reproducibility of `ConstructExternal` -/

theorem stringLE_antisymm (a b : String) (hab : stringLE a b) (hba : stringLE b a) : a = b := by
  rw [stringLE_iff] at *
  exact le_antisymm hab hba

theorem sortStrings_sorted_stringLE (l : List String) : List.Sorted stringLE (sortStrings l) := by
  haveI : IsTotal String stringLE := ⟨stringLE_total⟩
  haveI : IsTrans String stringLE := ⟨stringLE_trans⟩
  exact List.sorted_insertionSort stringLE l

theorem sortStrings_eq_of_perm (l1 l2 : List String) (h : l1.Perm l2) :
    sortStrings l1 = sortStrings l2 := by
  haveI : IsAntisymm String stringLE := ⟨stringLE_antisymm⟩
  exact List.eq_of_perm_of_sorted
    (((sortStrings_perm l1).trans h).trans (sortStrings_perm l2).symm)
    (sortStrings_sorted_stringLE l1) (sortStrings_sorted_stringLE l2)

theorem sortStrings_idem (l : List String) : sortStrings (sortStrings l) = sortStrings l :=
  List.Sorted.insertionSort_eq (sortStrings_sorted_stringLE l)

theorem sortLists_idem (m : List (String × List String)) :
    sortLists (sortLists m) = sortLists m := by
  simp [sortLists, List.map_map, Function.comp_def, sortStrings_idem]

theorem lookup_sortLists (m : List (String × List String)) (k : String) :
    (sortLists m).lookup k = (m.lookup k).map sortStrings := by
  induction m with
  | nil => simp [sortLists]
  | cons e m ih =>
    obtain ⟨k', l⟩ := e
    by_cases hk : k = k'
    · subst hk
      simp [sortLists, List.lookup_cons]
    · have h0 : (k == k') = false := by simpa using hk
      have ih' : List.lookup k (List.map (fun e => (e.1, sortStrings e.2)) m) =
          (m.lookup k).map sortStrings := ih
      simp [sortLists, List.lookup_cons, h0, ih']

theorem lookup_storagePools (s : StorageClass Offer Request) (k : String) :
    s.ConstructExternal.1.StoragePools.lookup k =
      if (s.pools.filter (fun p => p.Backend.Name = k)).map (fun p => p.Name) = [] then none
      else some (sortStrings
        ((s.pools.filter (fun p => p.Backend.Name = k)).map (fun p => p.Name))) := by
  show (sortLists (groupLoop s.pools [])).lookup k = _
  rw [lookup_sortLists, lookup_groupLoop]
  simp only [List.lookup_nil]
  by_cases hn : (s.pools.filter (fun p => p.Backend.Name = k)).map (fun p => p.Name) = []
  · simp [hn]
  · simp [hn]

theorem perm_of_lookup_eq {V : Type} (m1 m2 : List (String × V))
    (h1 : (m1.map Prod.fst).Nodup) (h2 : (m2.map Prod.fst).Nodup)
    (h : ∀ k, m1.lookup k = m2.lookup k) : m1.Perm m2 := by
  refine (List.perm_ext_iff_of_nodup (List.Nodup.of_map _ h1) (List.Nodup.of_map _ h2)).2 ?_
  rintro ⟨k, v⟩
  constructor
  · intro hmem
    exact mem_of_lookup_eq_some m2 k v (by rw [← h]; exact lookup_eq_some_of_mem m1 k v h1 hmem)
  · intro hmem
    exact mem_of_lookup_eq_some m1 k v (by rw [h]; exact lookup_eq_some_of_mem m2 k v h2 hmem)

theorem nodup_keys_storagePools (s : StorageClass Offer Request) :
    (s.ConstructExternal.1.StoragePools.map Prod.fst).Nodup := by
  show ((sortLists (groupLoop s.pools [])).map Prod.fst).Nodup
  rw [keys_sortLists]
  exact nodup_keys_groupLoop s.pools [] (by simp)

/-- Claim C11.  `ConstructExternal` is reproducible: a second call on the class left by the
first, with the membership unchanged, returns an equal projection (equal `Config`, equal
`StoragePools`); and the `StoragePools` mapping does not depend on the order of the
membership: for any permutation of the member pools every backend name is mapped to the same
list, so the two mappings have the same entries. -/
theorem constructExternal_reproducible (s : StorageClass Offer Request)
    (ps : List (StoragePool Offer)) (hperm : ps.Perm s.pools) :
    s.ConstructExternal.2.pools = s.pools ∧
    s.ConstructExternal.2.ConstructExternal.1 = s.ConstructExternal.1 ∧
    (∀ k, (StorageClass.ConstructExternal { s with pools := ps }).1.StoragePools.lookup k =
      s.ConstructExternal.1.StoragePools.lookup k) ∧
    (StorageClass.ConstructExternal { s with pools := ps }).1.StoragePools.Perm
      s.ConstructExternal.1.StoragePools ∧
    (StorageClass.ConstructExternal { s with pools := ps }).1.Config =
      s.ConstructExternal.1.Config := by
  have hlook : ∀ k,
      (StorageClass.ConstructExternal { s with pools := ps }).1.StoragePools.lookup k =
        s.ConstructExternal.1.StoragePools.lookup k := by
    intro k
    rw [lookup_storagePools, lookup_storagePools]
    have hnames : ((ps.filter (fun p => p.Backend.Name = k)).map (fun p => p.Name)).Perm
        ((s.pools.filter (fun p => p.Backend.Name = k)).map (fun p => p.Name)) :=
      (hperm.filter _).map _
    by_cases hn : (s.pools.filter (fun p => p.Backend.Name = k)).map (fun p => p.Name) = []
    · have hn' : (ps.filter (fun p => p.Backend.Name = k)).map (fun p => p.Name) = [] := by
        rw [hn] at hnames
        exact List.Perm.eq_nil hnames
      simp only [hn, hn', if_true]
    · have hn' : (ps.filter (fun p => p.Backend.Name = k)).map (fun p => p.Name) ≠ [] := by
        intro h0
        rw [h0] at hnames
        exact hn (List.Perm.eq_nil hnames.symm)
      simp only [hn, hn', if_false]
      rw [sortStrings_eq_of_perm _ _ hnames]
  refine ⟨rfl, ?_, hlook, ?_, rfl⟩
  · show ({ Config := { s.config with
              BackendStoragePools := sortLists (sortLists s.config.BackendStoragePools) },
            StoragePools := sortLists (groupLoop s.pools []) } :
          StorageClassExternal Request) = _
    rw [sortLists_idem]
    rfl
  · exact perm_of_lookup_eq _ _ (nodup_keys_storagePools _) (nodup_keys_storagePools s) hlook

/-- The membership `[p1, r1, p2]` and its permutation `[r1, p2, p1]`: backend `A` is mapped to
`[p1, p2]` and backend `B` to `[r1]` for both. -/
theorem constructExternal_reproducible_witness :
    [exR1, exP2, exP1].Perm [exP1, exR1, exP2] ∧
    (StorageClass.ConstructExternal { exGold with pools := [exP1, exR1, exP2] }).1.StoragePools =
      [("A", ["p1", "p2"]), ("B", ["r1"])] ∧
    (StorageClass.ConstructExternal { exGold with pools := [exR1, exP2, exP1] }).1.StoragePools =
      [("B", ["r1"]), ("A", ["p1", "p2"])] ∧
    (∀ k, (StorageClass.ConstructExternal
        { exGold with pools := [exR1, exP2, exP1] }).1.StoragePools.lookup k =
      (StorageClass.ConstructExternal
        { exGold with pools := [exP1, exR1, exP2] }).1.StoragePools.lookup k) :=
  ⟨by decide, by decide, by decide,
    (constructExternal_reproducible { exGold with pools := [exP1, exR1, exP2] }
      [exR1, exP2, exP1] (by decide)).2.2.1⟩

/-! ## `ConstructPersistent` and the shared configuration -/

theorem forall₂_sortLists (m : List (String × List String)) :
    List.Forall₂ (fun e e0 : String × List String =>
      e.1 = e0.1 ∧ List.Sorted (fun a b : String => a ≤ b) e.2 ∧ e.2.Perm e0.2)
      (sortLists m) m := by
  induction m with
  | nil => exact List.Forall₂.nil
  | cons e m ih =>
    exact List.Forall₂.cons ⟨rfl, sortStrings_sorted e.2, sortStrings_perm e.2⟩ ih

theorem sortStrings_of_sorted (l : List String)
    (h : List.Sorted (fun a b : String => a ≤ b) l) : sortStrings l = l :=
  List.Sorted.insertionSort_eq
    (List.Pairwise.imp (fun {a b} hab => (stringLE_iff a b).2 hab) h)

theorem sortLists_of_sorted (m : List (String × List String))
    (h : ∀ e ∈ m, List.Sorted (fun a b : String => a ≤ b) e.2) : sortLists m = m := by
  induction m with
  | nil => rfl
  | cons e m ih =>
    have he := sortStrings_of_sorted e.2 (h e (List.mem_cons_self e m))
    have hm := ih (fun e' he' => h e' (List.mem_cons_of_mem e he'))
    show (e.1, sortStrings e.2) :: sortLists m = e :: m
    rw [he, hm]

/-- Claim C12.  `ConstructPersistent` returns a projection whose `Config` has the name, the
version and the attributes of the class's configuration and the same allow-list backend
names, in which the entry of each backend is the sorted permutation of the class's entry
for that backend; the projection is the same whatever the membership of the class. -/
theorem constructPersistent_spec (s : StorageClass Offer Request) :
    s.ConstructPersistent.1.Config.Name = s.config.Name ∧
    s.ConstructPersistent.1.Config.Version = s.config.Version ∧
    s.ConstructPersistent.1.Config.Attributes = s.config.Attributes ∧
    s.ConstructPersistent.1.Config.BackendStoragePools.map Prod.fst =
      s.config.BackendStoragePools.map Prod.fst ∧
    List.Forall₂ (fun e e0 : String × List String =>
      e.1 = e0.1 ∧ List.Sorted (fun a b : String => a ≤ b) e.2 ∧ e.2.Perm e0.2)
      s.ConstructPersistent.1.Config.BackendStoragePools s.config.BackendStoragePools ∧
    (∀ k, s.ConstructPersistent.1.Config.BackendStoragePools.lookup k =
      (s.config.BackendStoragePools.lookup k).map sortStrings) ∧
    (∀ ps : List (StoragePool Offer),
      (StorageClass.ConstructPersistent { s with pools := ps }).1 = s.ConstructPersistent.1) :=
  ⟨rfl, rfl, rfl, keys_sortLists _, forall₂_sortLists _, lookup_sortLists _,
    fun _ => rfl⟩

/-- Claim C13, refuted as stated.  The class `unsorted` has the allow-list entry `[p2, p1]`
under `A`; after `ConstructPersistent`, and after `ConstructExternal`, the class's own
allow-list entry reads `[p1, p2]`. -/
theorem constructPersistent_config_counterexample :
    exUnsorted.GetBackendStoragePools = [("A", ["p2", "p1"])] ∧
    exUnsorted.ConstructPersistent.2.GetBackendStoragePools = [("A", ["p1", "p2"])] ∧
    exUnsorted.ConstructExternal.2.GetBackendStoragePools = [("A", ["p1", "p2"])] :=
  ⟨rfl, by decide, by decide⟩

/-- Claim C13, amended.  `ConstructPersistent` and `ConstructExternal` do not copy the
configuration: the projection's `Config` is the class's configuration after the call.  The
call leaves the membership and the configuration's name, version, attributes and allow-list
backend names unchanged, and sorts every allow-list entry of the class in place: each entry
keeps its pool names with their multiplicities; an allow-list whose entries were already
sorted is unchanged, so a second call changes nothing. -/
theorem construct_config_frame (s : StorageClass Offer Request) :
    s.ConstructPersistent.2 = s.ConstructExternal.2 ∧
    s.ConstructPersistent.1.Config = s.ConstructPersistent.2.config ∧
    s.ConstructExternal.1.Config = s.ConstructExternal.2.config ∧
    s.ConstructPersistent.2.pools = s.pools ∧
    s.ConstructPersistent.2.config.Name = s.config.Name ∧
    s.ConstructPersistent.2.config.Version = s.config.Version ∧
    s.ConstructPersistent.2.GetAttributes = s.GetAttributes ∧
    s.ConstructPersistent.2.GetBackendStoragePools.map Prod.fst =
      s.GetBackendStoragePools.map Prod.fst ∧
    List.Forall₂ (fun e e0 : String × List String =>
      e.1 = e0.1 ∧ List.Sorted (fun a b : String => a ≤ b) e.2 ∧ e.2.Perm e0.2)
      s.ConstructPersistent.2.GetBackendStoragePools s.GetBackendStoragePools ∧
    ((∀ e ∈ s.GetBackendStoragePools, List.Sorted (fun a b : String => a ≤ b) e.2) →
      s.ConstructPersistent.2 = s) ∧
    s.ConstructPersistent.2.ConstructPersistent.2 = s.ConstructPersistent.2 := by
  refine ⟨rfl, rfl, rfl, rfl, rfl, rfl, rfl, keys_sortLists _, forall₂_sortLists _, ?_, ?_⟩
  · intro hsorted
    show ({ config := { s.config with
              BackendStoragePools := sortLists s.config.BackendStoragePools },
            pools := s.pools } : StorageClass Offer Request) = s
    have hs : sortLists s.config.BackendStoragePools = s.config.BackendStoragePools :=
      sortLists_of_sorted _ hsorted
    rw [hs]
  · show ({ config := { s.config with
              BackendStoragePools := sortLists (sortLists s.config.BackendStoragePools) },
            pools := s.pools } : StorageClass Offer Request) = _
    rw [sortLists_idem]
    rfl

/-- The class `explicit` has the sorted allow-list entry `[p2, p4]`: the calls leave it as it
was. -/
theorem construct_config_frame_witness :
    (∀ e ∈ exExplicit.GetBackendStoragePools, List.Sorted (fun a b : String => a ≤ b) e.2) ∧
    exExplicit.ConstructPersistent.2 = exExplicit ∧
    exExplicit.ConstructExternal.2 = exExplicit := by
  have hsorted : ∀ e ∈ exExplicit.GetBackendStoragePools,
      List.Sorted (fun a b : String => a ≤ b) e.2 := by
    intro e he
    have he' : e = ("A", ["p2", "p4"]) := by
      simpa [exExplicit, StorageClass.GetBackendStoragePools] using he
    subst he'
    exact List.Pairwise.imp (fun {a b} hab => (stringLE_iff a b).1 hab)
      (by decide : List.Pairwise stringLE ["p2", "p4"])
  have h := (construct_config_frame exExplicit).2.2.2.2.2.2.2.2.2.1 hsorted
  exact ⟨hsorted, h, (construct_config_frame exExplicit).1 ▸ h⟩

/-! ## Query accessors -/

theorem protocolLoop_eq (protocolAny p : Protocol) (l : List (StoragePool Offer)) :
    ∀ ret : List (StoragePool Offer),
      protocolLoop protocolAny p l ret =
        ret ++ l.filter (fun q => decide (p = protocolAny ∨ q.Backend.Protocol = p)) := by
  induction l with
  | nil => intro ret; simp [protocolLoop]
  | cons q l ih =>
    intro ret
    by_cases hq : p = protocolAny ∨ q.Backend.Protocol = p
    · simp [protocolLoop, hq, ih]
    · simp [protocolLoop, hq, ih]

/-- Claim C14.  `GetStoragePoolsForProtocol(p)` returns, in membership order, the member
pools whose backend's protocol is `p` or, when `p` is the wildcard, every member pool: for
the wildcard the result is the membership itself, and for any other `p` it is exactly the
sub-list of the members whose backend's protocol equals `p`.  The call only reads the
class. -/
theorem getStoragePoolsForProtocol_spec (protocolAny : Protocol)
    (s : StorageClass Offer Request) (p : Protocol) :
    s.GetStoragePoolsForProtocol protocolAny p =
      s.pools.filter (fun q => decide (p = protocolAny ∨ q.Backend.Protocol = p)) ∧
    (p ≠ protocolAny →
      s.GetStoragePoolsForProtocol protocolAny p =
        s.pools.filter (fun q => decide (q.Backend.Protocol = p))) ∧
    (p = protocolAny → s.GetStoragePoolsForProtocol protocolAny p = s.pools) ∧
    List.Sublist (s.GetStoragePoolsForProtocol protocolAny p) s.pools := by
  have h : s.GetStoragePoolsForProtocol protocolAny p =
      s.pools.filter (fun q => decide (p = protocolAny ∨ q.Backend.Protocol = p)) := by
    simp [StorageClass.GetStoragePoolsForProtocol, protocolLoop_eq]
  refine ⟨h, ?_, ?_, ?_⟩
  · intro hne
    rw [h]
    simp [hne]
  · intro heq
    rw [h]
    simp [heq]
  · rw [h]
    exact List.filter_sublist _

/-- The membership `[p1, r1, p2]` with the file backend `A` and the block backend `B`: the
protocol `block` selects `[r1]`, the wildcard (here the empty string) selects all. -/
theorem getStoragePoolsForProtocol_spec_witness :
    StorageClass.GetStoragePoolsForProtocol ""
      { exGold with pools := [exP1, exR1, exP2] } "block" = [exR1] ∧
    StorageClass.GetStoragePoolsForProtocol ""
      { exGold with pools := [exP1, exR1, exP2] } "" = [exP1, exR1, exP2] :=
  ⟨(getStoragePoolsForProtocol_spec "" { exGold with pools := [exP1, exR1, exP2] }
      "block").2.1 (by decide),
   (getStoragePoolsForProtocol_spec "" { exGold with pools := [exP1, exR1, exP2] }
      "").2.2.1 rfl⟩

theorem volumeLoop_eq (className : String) (l : List Volume) :
    ∀ ret : List Volume,
      volumeLoop className l ret =
        ret ++ l.filter (fun vol => decide (vol.Config.StorageClass = className)) := by
  induction l with
  | nil => intro ret; simp [volumeLoop]
  | cons v l ih =>
    intro ret
    by_cases hv : v.Config.StorageClass = className
    · simp [volumeLoop, hv, ih]
    · simp [volumeLoop, hv, ih]

theorem poolVolumeLoop_eq (className : String) (l : List (StoragePool Offer)) :
    ∀ ret : List Volume,
      poolVolumeLoop className l ret =
        ret ++ l.flatMap (fun storagePool =>
          storagePool.Volumes.filter (fun vol => decide (vol.Config.StorageClass = className))) := by
  induction l with
  | nil => intro ret; simp [poolVolumeLoop]
  | cons q l ih =>
    intro ret
    simp [poolVolumeLoop, volumeLoop_eq, ih, List.flatMap_cons]

/-- Claim C15.  `GetVolumes` returns, pool after pool in membership order and within a pool
in the order of its volumes, exactly the volumes of the member pools whose configuration
names this class: every returned volume is held by a member pool and names this class, and
every volume of a member pool that names this class is returned. -/
theorem getVolumes_spec (s : StorageClass Offer Request) :
    s.GetVolumes =
      s.pools.flatMap (fun storagePool =>
        storagePool.Volumes.filter (fun vol => decide (vol.Config.StorageClass = s.GetName))) ∧
    (∀ vol, vol ∈ s.GetVolumes ↔
      ∃ storagePool ∈ s.pools, vol ∈ storagePool.Volumes ∧
        vol.Config.StorageClass = s.GetName) := by
  have h : s.GetVolumes =
      s.pools.flatMap (fun storagePool =>
        storagePool.Volumes.filter
          (fun vol => decide (vol.Config.StorageClass = s.GetName))) := by
    simp [StorageClass.GetVolumes, poolVolumeLoop_eq]
  refine ⟨h, ?_⟩
  intro vol
  rw [h]
  simp [List.mem_flatMap, List.mem_filter]

/-- The class `gold` with the members `p1` (no volume) and `r1` (volumes `v1` of `gold` and
`v2` of `silver`): `GetVolumes` returns `[v1]`. -/
theorem getVolumes_spec_witness :
    StorageClass.GetVolumes { exGold with pools := [exP1, exR1] } = [exV1] :=
  (getVolumes_spec { exGold with pools := [exP1, exR1] }).1

/-! ## The membership invariant -/

theorem addLoop_some (om : Offer → Request → Bool) (c : Config Request)
    (l : List (StoragePool Offer)) :
    ∀ (ps : List (StoragePool Offer)) (h : PoolClasses) (added : Nat)
      (r : Nat × StorageClass Offer Request × PoolClasses),
      addLoop om l { config := c, pools := ps } h added = some r →
      r.2.1.config = c ∧
      ∀ p ∈ r.2.1.pools, p ∈ ps ∨
        (p ∈ l ∧ StorageClass.Matches om { config := c, pools := [] } p = some true) := by
  induction l with
  | nil =>
    intro ps h added r hr
    simp only [addLoop, Option.some.injEq] at hr
    subst hr
    exact ⟨rfl, fun p hp => Or.inl hp⟩
  | cons q l ih =>
    intro ps h added r hr
    have hcfg : StorageClass.Matches om { config := c, pools := ps } q =
        StorageClass.Matches om { config := c, pools := [] } q := rfl
    cases hm : StorageClass.Matches om { config := c, pools := [] } q with
    | none =>
      rw [addLoop, hcfg, hm] at hr
      exact absurd hr (by simp)
    | some v =>
      cases v with
      | true =>
        rw [addLoop, hcfg, hm] at hr
        obtain ⟨h1, h2⟩ := ih _ _ _ r hr
        refine ⟨h1, fun p hp => ?_⟩
        rcases h2 p hp with hmem | ⟨hmem, hmatch⟩
        · rcases List.mem_append.1 hmem with hold | hnew
          · exact Or.inl hold
          · have hpq : p = q := by simpa using hnew
            subst hpq
            exact Or.inr ⟨List.mem_cons_self _ _, hm⟩
        · exact Or.inr ⟨List.mem_cons_of_mem _ hmem, hmatch⟩
      | false =>
        rw [addLoop, hcfg, hm] at hr
        obtain ⟨h1, h2⟩ := ih _ _ _ r hr
        refine ⟨h1, fun p hp => ?_⟩
        rcases h2 p hp with hmem | ⟨hmem, hmatch⟩
        · exact Or.inl hmem
        · exact Or.inr ⟨List.mem_cons_of_mem _ hmem, hmatch⟩

theorem checkAndAddBackend_some (om : Offer → Request → Bool)
    (s : StorageClass Offer Request) (b : StorageBackend Offer) (h : PoolClasses)
    (r : Nat × StorageClass Offer Request × PoolClasses)
    (hr : s.CheckAndAddBackend om b h = some r) :
    r.2.1.config = s.config ∧
    ∀ p ∈ r.2.1.pools, p ∈ s.pools ∨
      (b.Online = true ∧ p ∈ b.Storage ∧ s.Matches om p = some true) := by
  obtain ⟨c, ps⟩ := s
  cases hon : b.Online with
  | false =>
    simp only [StorageClass.CheckAndAddBackend, hon, Bool.not_false, if_true,
      Option.some.injEq] at hr
    subst hr
    exact ⟨rfl, fun p hp => Or.inl hp⟩
  | true =>
    simp only [StorageClass.CheckAndAddBackend, hon, Bool.not_true, Bool.false_eq_true,
      if_false] at hr
    obtain ⟨h1, h2⟩ := addLoop_some om c b.Storage ps h 0 r hr
    refine ⟨h1, fun p hp => ?_⟩
    rcases h2 p hp with hmem | ⟨hmem, hmatch⟩
    · exact Or.inl hmem
    · exact Or.inr ⟨rfl, hmem, hmatch⟩

theorem runCalls_some (om : Offer → Request → Bool) (calls : List (Call Offer)) :
    ∀ (st st' : StorageClass Offer Request × PoolClasses),
      runCalls om calls st = some st' →
      st'.1.config = st.1.config ∧
      ∀ p ∈ st'.1.pools, p ∈ st.1.pools ∨
        (st.1.Matches om p = some true ∧
          ∃ b, Call.checkAndAddBackend b ∈ calls ∧ b.Online = true ∧ p ∈ b.Storage) := by
  induction calls with
  | nil =>
    intro st st' hrun
    simp only [runCalls, Option.some.injEq] at hrun
    subst hrun
    exact ⟨rfl, fun p hp => Or.inl hp⟩
  | cons call calls ih =>
    intro st st' hrun
    cases call with
    | checkAndAddBackend b =>
      cases hadd : st.1.CheckAndAddBackend om b st.2 with
      | none =>
        simp [runCalls, hadd] at hrun
      | some r =>
        simp only [runCalls, hadd] at hrun
        obtain ⟨hc1, hp1⟩ := checkAndAddBackend_some om st.1 b st.2 r hadd
        obtain ⟨hc2, hp2⟩ := ih _ _ hrun
        refine ⟨hc2.trans hc1, fun p hp => ?_⟩
        have hmatch : StorageClass.Matches om r.2.1 p = StorageClass.Matches om st.1 p := by
          unfold StorageClass.Matches
          rw [hc1]
        rcases hp2 p hp with hmem | ⟨hm, b', hb', hon', hmem'⟩
        · rcases hp1 p hmem with hold | ⟨hon, hst, hm⟩
          · exact Or.inl hold
          · exact Or.inr ⟨hm, b, List.mem_cons_self _ _, hon, hst⟩
        · exact Or.inr ⟨hmatch ▸ hm, b', List.mem_cons_of_mem _ hb', hon', hmem'⟩
    | removePoolsForBackend b =>
      simp only [runCalls] at hrun
      obtain ⟨hc2, hp2⟩ := ih _ _ hrun
      refine ⟨hc2, fun p hp => ?_⟩
      rcases hp2 p hp with hmem | ⟨hm, b', hb', hon', hmem'⟩
      · have hsub : p ∈ (st.1.RemovePoolsForBackend b).pools := hmem
        rw [removePoolsForBackend_pools] at hsub
        exact Or.inl (List.mem_filter.1 hsub).1
      · exact Or.inr ⟨hm, b', List.mem_cons_of_mem _ hb', hon', hmem'⟩

/-- Claim C16.  In every state reached from a newly constructed class by a sequence of
`CheckAndAddBackend` and `RemovePoolsForBackend` calls, the configuration is the one the
class was constructed with, and every member pool satisfies `Matches` and was exposed by a
backend that was online in a `CheckAndAddBackend` call of the sequence. -/
theorem membership_invariant (om : Offer → Request → Bool) (apiVersion : String)
    (c : Config Request) (calls : List (Call Offer)) (h0 h : PoolClasses)
    (s : StorageClass Offer Request)
    (hrun : runCalls om calls (New apiVersion c, h0) = some (s, h)) :
    s.config = (New apiVersion c : StorageClass Offer Request).config ∧
    ∀ p ∈ s.pools, s.Matches om p = some true ∧
      ∃ b, Call.checkAndAddBackend b ∈ calls ∧ b.Online = true ∧ p ∈ b.Storage := by
  obtain ⟨hc, hp⟩ := runCalls_some om calls _ _ hrun
  refine ⟨hc, fun p hmem => ?_⟩
  have hmatch : s.Matches om p =
      StorageClass.Matches om (New apiVersion c : StorageClass Offer Request) p := by
    unfold StorageClass.Matches
    rw [show s.config = (New apiVersion c : StorageClass Offer Request).config from hc]
  rcases hp p hmem with hnil | ⟨hm, hb⟩
  · simp [New] at hnil
  · exact ⟨hmatch ▸ hm, hb⟩

/-- The class `gold`, newly constructed, after registering the backends `A` and `B` and
removing `A`: the membership is `[r1]`. -/
theorem membership_invariant_witness :
    runCalls exMatch
      [Call.checkAndAddBackend exBackendA, Call.checkAndAddBackend exBackendB,
        Call.removePoolsForBackend exBackendA]
      (New "1" exGold.config, []) =
      some ({ exGold with pools := [exR1] }, [(11, "gold"), (31, "gold")]) ∧
    ∀ p ∈ [exR1], StorageClass.Matches exMatch { exGold with pools := [exR1] } p = some true ∧
      ∃ b, Call.checkAndAddBackend b ∈
          [Call.checkAndAddBackend exBackendA, Call.checkAndAddBackend exBackendB,
            Call.removePoolsForBackend exBackendA] ∧
        b.Online = true ∧ p ∈ b.Storage :=
  ⟨rfl, (membership_invariant exMatch "1" exGold.config
      [Call.checkAndAddBackend exBackendA, Call.checkAndAddBackend exBackendB,
        Call.removePoolsForBackend exBackendA] [] [(11, "gold"), (31, "gold")]
      { exGold with pools := [exR1] } rfl).2⟩

/-! ## Totality of `Matches` and `New` -/

/-- Claim C17.  On a pool whose offer map is initialized `Matches` returns a boolean; it
reaches the fatal branch exactly when the pool's offer map is nil, the class requires at
least one attribute, and no allow-list entry names the pool. -/
theorem matches_panic_iff (om : Offer → Request → Bool) (s : StorageClass Offer Request)
    (p : StoragePool Offer) :
    (∀ offers, p.Attributes = some offers → ∃ r, s.Matches om p = some r) ∧
    (s.Matches om p = none ↔
      (p.Attributes = none ∧ s.config.Attributes ≠ [] ∧
        ¬ ∃ l, s.config.BackendStoragePools.lookup p.Backend.Name = some l ∧ p.Name ∈ l)) := by
  constructor
  · intro offers hp
    obtain ⟨r, hr, _⟩ := matches_of_initialized om s p offers hp
    exact ⟨r, hr⟩
  · by_cases ha : allowListed s.config p = true
    · have hl := (allowListed_eq_true s.config p).1 ha
      simp [StorageClass.Matches, ha, hl]
    · have hno : ¬ ∃ l, s.config.BackendStoragePools.lookup p.Backend.Name = some l ∧
          p.Name ∈ l := fun h => ha ((allowListed_eq_true s.config p).2 h)
      cases hp : p.Attributes with
      | some offers =>
        obtain ⟨r, hr, _⟩ := matches_of_initialized om s p offers hp
        simp [hr]
      | none =>
        cases hattrs : s.config.Attributes with
        | nil => simp [StorageClass.Matches, ha, hattrs, attributeLoop]
        | cons e attrs =>
          obtain ⟨name, request⟩ := e
          simp only [StorageClass.Matches, ha, hattrs, attributeLoop, hp, Bool.false_eq_true,
            if_false, true_iff, ne_eq, reduceCtorEq, not_false_eq_true, true_and]
          exact hno

/-- Claim C18.  `New(c)` yields a class with an empty membership whose name, attributes and
allow-list are those of `c`, and whose version is the orchestrator's API version when the
version of `c` is the empty string and the version of `c` otherwise. -/
theorem new_spec (apiVersion : String) (c : Config Request) :
    (New apiVersion c : StorageClass Offer Request).pools = [] ∧
    (New apiVersion c : StorageClass Offer Request).GetName = c.Name ∧
    (New apiVersion c : StorageClass Offer Request).GetAttributes = c.Attributes ∧
    (New apiVersion c : StorageClass Offer Request).GetBackendStoragePools =
      c.BackendStoragePools ∧
    (c.Version = "" →
      (New apiVersion c : StorageClass Offer Request).config.Version = apiVersion) ∧
    (c.Version ≠ "" →
      (New apiVersion c : StorageClass Offer Request).config.Version = c.Version) := by
  by_cases hv : c.Version = ""
  · simp [New, hv, StorageClass.GetName, StorageClass.GetAttributes,
      StorageClass.GetBackendStoragePools]
  · simp [New, hv, StorageClass.GetName, StorageClass.GetAttributes,
      StorageClass.GetBackendStoragePools]

/-- A configuration without a version gets the API version `v1`; the class `gold` keeps its
version `1`. -/
theorem new_spec_witness :
    (New "v1" { exGold.config with Version := "" } : StorageClass String String).config.Version =
      "v1" ∧
    (New "v1" exGold.config : StorageClass String String).config.Version = "1" :=
  ⟨(new_spec "v1" { exGold.config with Version := "" }).2.2.2.2.1 rfl,
   (new_spec "v1" exGold.config).2.2.2.2.2 (by decide)⟩

/-! ## Order independence of `Matches` -/

theorem lookup_of_forall₂ (m m' : List (String × List String))
    (h : List.Forall₂ (fun e e' : String × List String => e.1 = e'.1 ∧ e.2.Perm e'.2) m m')
    (k : String) :
    (m.lookup k = none ∧ m'.lookup k = none) ∨
    ∃ l l', m.lookup k = some l ∧ m'.lookup k = some l' ∧ l.Perm l' := by
  induction h with
  | nil => exact Or.inl ⟨rfl, rfl⟩
  | @cons e e' m m' hee' _ ih =>
    obtain ⟨k1, l1⟩ := e
    obtain ⟨k2, l2⟩ := e'
    obtain ⟨hk, hperm⟩ := hee'
    simp only at hk hperm
    subst hk
    by_cases hkk : k = k1
    · subst hkk
      exact Or.inr ⟨l1, l2, by simp [List.lookup_cons], by simp [List.lookup_cons], hperm⟩
    · have h0 : (k == k1) = false := by simpa using hkk
      simpa only [List.lookup_cons, h0] using ih

theorem allowListed_of_forall₂ (c c' : Config Request) (p : StoragePool Offer)
    (h : List.Forall₂ (fun e e' : String × List String => e.1 = e'.1 ∧ e.2.Perm e'.2)
      c.BackendStoragePools c'.BackendStoragePools) :
    allowListed c' p = allowListed c p := by
  have hiff : allowListed c' p = true ↔ allowListed c p = true := by
    rw [allowListed_eq_true, allowListed_eq_true]
    rcases lookup_of_forall₂ _ _ h p.Backend.Name with ⟨h1, h2⟩ | ⟨l, l', h1, h2, hperm⟩
    · simp [h1, h2]
    · simp only [h1, h2, Option.some.injEq, exists_eq_left']
      exact hperm.symm.mem_iff
  cases h1 : allowListed c' p <;> cases h2 : allowListed c p <;> simp_all

theorem attributeLoop_of_perm (om : Offer → Request → Bool) (p : StoragePool Offer)
    (attrs attrs' : List (String × Request)) (h : attrs.Perm attrs') (b : Bool) :
    attributeLoop om p attrs' b = attributeLoop om p attrs b := by
  cases hp : p.Attributes with
  | none =>
    cases attrs with
    | nil =>
      have h0 : attrs' = [] := List.Perm.eq_nil h.symm
      subst h0
      rfl
    | cons e attrs =>
      cases attrs' with
      | nil => exact absurd (List.Perm.eq_nil h) (by simp)
      | cons e' attrs' => simp [attributeLoop, hp]
  | some offers =>
    obtain ⟨r, hr, hiff⟩ := attributeLoop_of_some om p offers hp attrs b
    obtain ⟨r', hr', hiff'⟩ := attributeLoop_of_some om p offers hp attrs' b
    rw [hr, hr']
    have hrr : r' = true ↔ r = true := by
      rw [hiff, hiff']
      constructor
      · rintro ⟨hb, hall⟩
        exact ⟨hb, fun e he => hall e (h.mem_iff.1 he)⟩
      · rintro ⟨hb, hall⟩
        exact ⟨hb, fun e he => hall e (h.mem_iff.2 he)⟩
    cases r <;> cases r' <;> simp_all

theorem matches_of_config_perm (om : Offer → Request → Bool)
    (s s' : StorageClass Offer Request) (p : StoragePool Offer)
    (hallow : List.Forall₂
      (fun e e' : String × List String => e.1 = e'.1 ∧ e.2.Perm e'.2)
      s.config.BackendStoragePools s'.config.BackendStoragePools)
    (hattrs : s.config.Attributes.Perm s'.config.Attributes) :
    s'.Matches om p = s.Matches om p := by
  unfold StorageClass.Matches
  rw [allowListed_of_forall₂ s.config s'.config p hallow,
    attributeLoop_of_perm om p _ _ hattrs, hattrs.length_eq]

theorem forall₂_perm_sortLists (m : List (String × List String)) :
    List.Forall₂ (fun e e' : String × List String => e.1 = e'.1 ∧ e.2.Perm e'.2)
      m (sortLists m) := by
  induction m with
  | nil => exact List.Forall₂.nil
  | cons e m ih => exact List.Forall₂.cons ⟨rfl, (sortStrings_perm e.2).symm⟩ ih

/-- Claim C19.  `Matches` does not depend on the order inside the configuration: for two
classes whose allow-lists have the same backend names with, under each, the same pool names
up to order, and whose attributes are the same requests up to order, `Matches` gives the
same result on every pool (the same boolean, or the panic in both); in particular the result
is the same on the class left by `ConstructExternal` or by `ConstructPersistent`, which sort
the allow-list entries in place. -/
theorem matches_order_independent (om : Offer → Request → Bool)
    (s s' : StorageClass Offer Request) (p : StoragePool Offer)
    (hallow : List.Forall₂
      (fun e e' : String × List String => e.1 = e'.1 ∧ e.2.Perm e'.2)
      s.config.BackendStoragePools s'.config.BackendStoragePools)
    (hattrs : s.config.Attributes.Perm s'.config.Attributes) :
    s'.Matches om p = s.Matches om p ∧
    s.ConstructExternal.2.Matches om p = s.Matches om p ∧
    s.ConstructPersistent.2.Matches om p = s.Matches om p :=
  ⟨matches_of_config_perm om s s' p hallow hattrs,
   matches_of_config_perm om s s.ConstructExternal.2 p
     (forall₂_perm_sortLists s.config.BackendStoragePools) (List.Perm.refl _),
   matches_of_config_perm om s s.ConstructPersistent.2 p
     (forall₂_perm_sortLists s.config.BackendStoragePools) (List.Perm.refl _)⟩

/-- The class `unsorted` (allow-list `A: [p2, p1]`) and the class it becomes after
`ConstructPersistent` (allow-list `A: [p1, p2]`) agree on the pool `p2`, which matches
through the allow-list only. -/
theorem matches_order_independent_witness :
    List.Forall₂ (fun e e' : String × List String => e.1 = e'.1 ∧ e.2.Perm e'.2)
      exUnsorted.config.BackendStoragePools
      exUnsorted.ConstructPersistent.2.config.BackendStoragePools ∧
    exUnsorted.config.Attributes.Perm exUnsorted.ConstructPersistent.2.config.Attributes ∧
    exUnsorted.ConstructPersistent.2.Matches exMatch exP2 = some true ∧
    exUnsorted.Matches exMatch exP2 = some true :=
  ⟨forall₂_perm_sortLists _, List.Perm.refl _,
    (matches_order_independent exMatch exUnsorted exUnsorted.ConstructPersistent.2 exP2
      (forall₂_perm_sortLists _) (List.Perm.refl _)).1.trans rfl, rfl⟩

/-! ## Registration undone by deregistration -/

theorem filter_not_owned_of_owned (a : Nat) (l : List (StoragePool Offer))
    (h : ∀ p ∈ l, p.Backend.addr = a) :
    l.filter (fun p => decide (p.Backend.addr ≠ a)) = [] := by
  rw [List.filter_eq_nil_iff]
  intro p hp
  simpa using h p hp

/-- Claim C20, refuted as stated.  The online backend exposing `p1` and the nil-map pool
`p4` owns both pools, yet `CheckAndAddBackend` on the class `gold` panics, so there is no
membership to compare after the two calls. -/
theorem add_then_remove_counterexample :
    (∀ p ∈ exBackendANil.Storage, p.Backend.addr = exBackendANil.addr) ∧
    exBackendANil.Online = true ∧
    (exGold.CheckAndAddBackend exMatch exBackendANil []).map
      (fun r => r.2.1.RemovePoolsForBackend exBackendANil) = none ∧
    (exGold.RemovePoolsForBackend exBackendANil).pools = [] :=
  ⟨by decide, rfl, rfl, rfl⟩

/-- Claim C20, amended.  For a backend `b` all of whose exposed pools have `b` as their
backend and, when `b` is online, on none of whose pools `Matches` panics:
`CheckAndAddBackend(b)` followed by `RemovePoolsForBackend(b)` leaves the class that
`RemovePoolsForBackend(b)` alone leaves; if no member was owned by `b` beforehand the class
is restored exactly; and `RemovePoolsForBackend(b)` applied twice equals applying it once. -/
theorem add_then_remove (om : Offer → Request → Bool) (s : StorageClass Offer Request)
    (b : StorageBackend Offer) (h : PoolClasses)
    (hown : ∀ p ∈ b.Storage, p.Backend.addr = b.addr)
    (hok : b.Online = true → ∀ p ∈ b.Storage, s.Matches om p ≠ none) :
    ∃ (n : Nat) (s' : StorageClass Offer Request) (h' : PoolClasses),
      s.CheckAndAddBackend om b h = some (n, s', h') ∧
      s'.RemovePoolsForBackend b = s.RemovePoolsForBackend b ∧
      ((∀ p ∈ s.pools, p.Backend.addr ≠ b.addr) → s'.RemovePoolsForBackend b = s) ∧
      (s.RemovePoolsForBackend b).RemovePoolsForBackend b = s.RemovePoolsForBackend b := by
  have hrem : ∀ t : StorageClass Offer Request, t.RemovePoolsForBackend b =
      { t with pools := t.pools.filter (fun p => decide (p.Backend.addr ≠ b.addr)) } := by
    intro t
    simp [StorageClass.RemovePoolsForBackend, removeLoop_eq]
  have hunowned : (∀ p ∈ s.pools, p.Backend.addr ≠ b.addr) → s.RemovePoolsForBackend b = s := by
    intro hall
    rw [hrem]
    have hf : s.pools.filter (fun p => decide (p.Backend.addr ≠ b.addr)) = s.pools :=
      List.filter_eq_self.2 (fun p hp => by simpa using hall p hp)
    rw [hf]
  have htwice : (s.RemovePoolsForBackend b).RemovePoolsForBackend b =
      s.RemovePoolsForBackend b := by
    rw [hrem (s.RemovePoolsForBackend b), hrem s]
    simp [List.filter_filter]
  cases hon : b.Online with
  | false =>
    refine ⟨0, s, h, checkAndAddBackend_offline_eq om s b h hon, rfl, hunowned, htwice⟩
  | true =>
    have heq := checkAndAddBackend_eq om s b h hon (hok hon)
    have hfilter : (b.Storage.filter (fun p => s.Matches om p = some true)).filter
        (fun p => decide (p.Backend.addr ≠ b.addr)) = [] :=
      filter_not_owned_of_owned b.addr _
        (fun p hp => hown p (List.mem_filter.1 hp).1)
    have hsame : StorageClass.RemovePoolsForBackend
        { s with pools := s.pools ++ b.Storage.filter (fun p => s.Matches om p = some true) } b =
        s.RemovePoolsForBackend b := by
      rw [hrem, hrem s]
      simp only [List.filter_append, hfilter, List.append_nil]
    exact ⟨_, _, _, heq, hsame, fun hall => hsame.trans (hunowned hall), htwice⟩

/-- The class `gold` with the member `r1` of backend `B`, and the online backend `A` that
owns `p1` and `p2`: registering and then deregistering `A` restores the membership `[r1]`. -/
theorem add_then_remove_witness :
    (∀ p ∈ exBackendA.Storage, p.Backend.addr = exBackendA.addr) ∧
    (exBackendA.Online = true → ∀ p ∈ exBackendA.Storage,
      StorageClass.Matches exMatch { exGold with pools := [exR1] } p ≠ none) ∧
    ∃ (n : Nat) (s' : StorageClass String String) (h' : PoolClasses),
      StorageClass.CheckAndAddBackend exMatch { exGold with pools := [exR1] } exBackendA [] =
        some (n, s', h') ∧
      s'.RemovePoolsForBackend exBackendA = { exGold with pools := [exR1] } :=
  ⟨by decide, fun _ => by decide, by
    obtain ⟨n, s', h', heq, _, hrestore, _⟩ :=
      add_then_remove exMatch { exGold with pools := [exR1] } exBackendA [] (by decide)
        (fun _ => by decide)
    exact ⟨n, s', h', heq, hrestore (by decide)⟩⟩

/-! ## Deregistration followed by registration -/

theorem matches_of_config_eq (om : Offer → Request → Bool)
    (s s' : StorageClass Offer Request) (p : StoragePool Offer) (hc : s'.config = s.config) :
    s'.Matches om p = s.Matches om p := by
  unfold StorageClass.Matches
  rw [hc]

theorem addLoop_ne_none (om : Offer → Request → Bool) (c : Config Request)
    (l : List (StoragePool Offer)) :
    ∀ (ps : List (StoragePool Offer)) (h : PoolClasses) (added : Nat)
      (r : Nat × StorageClass Offer Request × PoolClasses),
      addLoop om l { config := c, pools := ps } h added = some r →
      ∀ p ∈ l, StorageClass.Matches om { config := c, pools := [] } p ≠ none := by
  induction l with
  | nil => intro ps h added r _ p hp; simp at hp
  | cons q l ih =>
    intro ps h added r hr p hp
    have hcfg : StorageClass.Matches om { config := c, pools := ps } q =
        StorageClass.Matches om { config := c, pools := [] } q := rfl
    cases hm : StorageClass.Matches om { config := c, pools := [] } q with
    | none =>
      rw [addLoop, hcfg, hm] at hr
      exact absurd hr (by simp)
    | some v =>
      rcases List.mem_cons.1 hp with hpq | hpl
      · rw [hpq, hm]
        simp
      · cases v with
        | true =>
          rw [addLoop, hcfg, hm] at hr
          exact ih _ _ _ r hr p hpl
        | false =>
          rw [addLoop, hcfg, hm] at hr
          exact ih _ _ _ r hr p hpl

theorem checkAndAddBackend_ne_none (om : Offer → Request → Bool)
    (s : StorageClass Offer Request) (b : StorageBackend Offer) (h : PoolClasses)
    (r : Nat × StorageClass Offer Request × PoolClasses) (hon : b.Online = true)
    (hr : s.CheckAndAddBackend om b h = some r) :
    ∀ p ∈ b.Storage, s.Matches om p ≠ none := by
  obtain ⟨c, ps⟩ := s
  simp only [StorageClass.CheckAndAddBackend, hon, Bool.not_true, Bool.false_eq_true,
    if_false] at hr
  exact addLoop_ne_none om c b.Storage ps h 0 r hr

theorem checkAndAddBackend_pools_of_some (om : Offer → Request → Bool)
    (s : StorageClass Offer Request) (b : StorageBackend Offer) (h : PoolClasses)
    (r : Nat × StorageClass Offer Request × PoolClasses)
    (hr : s.CheckAndAddBackend om b h = some r) :
    r.2.1.config = s.config ∧
    r.2.1.pools = s.pools ++
      (if b.Online = true then b.Storage.filter (fun p => s.Matches om p = some true)
       else []) := by
  cases hon : b.Online with
  | false =>
    rw [checkAndAddBackend_offline_eq om s b h hon] at hr
    simp only [Option.some.injEq] at hr
    subst hr
    simp
  | true =>
    have hok := checkAndAddBackend_ne_none om s b h r hon hr
    rw [checkAndAddBackend_eq om s b h hon hok] at hr
    simp only [Option.some.injEq] at hr
    subst hr
    simp

theorem filter_owned_of_not_owned (a : Nat) (l : List (StoragePool Offer))
    (h : ∀ p ∈ l, p.Backend.addr ≠ a) :
    l.filter (fun p => decide (p.Backend.addr = a)) = [] := by
  rw [List.filter_eq_nil_iff]
  intro p hp
  simpa using h p hp

theorem filter_owned_of_owned (a : Nat) (l : List (StoragePool Offer))
    (h : ∀ p ∈ l, p.Backend.addr = a) :
    l.filter (fun p => decide (p.Backend.addr = a)) = l :=
  List.filter_eq_self.2 (fun p hp => by simpa using h p hp)

theorem runCalls_filter_owned (om : Offer → Request → Bool) (a : Nat)
    (calls : List (Call Offer)) :
    ∀ (st st' : StorageClass Offer Request × PoolClasses),
      (∀ call ∈ calls, call.avoids a = true) →
      runCalls om calls st = some st' →
      st'.1.config = st.1.config ∧
      st'.1.pools.filter (fun p => decide (p.Backend.addr = a)) =
        st.1.pools.filter (fun p => decide (p.Backend.addr = a)) := by
  induction calls with
  | nil =>
    intro st st' _ hrun
    simp only [runCalls, Option.some.injEq] at hrun
    subst hrun
    exact ⟨rfl, rfl⟩
  | cons call calls ih =>
    intro st st' havoid hrun
    have hcall := havoid call (List.mem_cons_self _ _)
    have hrest : ∀ call' ∈ calls, call'.avoids a = true :=
      fun call' hc => havoid call' (List.mem_cons_of_mem _ hc)
    cases call with
    | checkAndAddBackend b' =>
      cases hadd : st.1.CheckAndAddBackend om b' st.2 with
      | none => simp [runCalls, hadd] at hrun
      | some r =>
        simp only [runCalls, hadd] at hrun
        obtain ⟨hc1, hp1⟩ := checkAndAddBackend_pools_of_some om st.1 b' st.2 r hadd
        obtain ⟨hc2, hp2⟩ := ih _ _ hrest hrun
        refine ⟨hc2.trans hc1, ?_⟩
        have hforeign : ∀ p ∈ b'.Storage, p.Backend.addr ≠ a := by
          intro p hp
          have := List.all_eq_true.1 hcall p hp
          simpa using this
        have hnew : (if b'.Online = true then
              b'.Storage.filter (fun p => decide (st.1.Matches om p = some true))
            else []).filter (fun p => decide (p.Backend.addr = a)) = [] := by
          apply filter_owned_of_not_owned
          intro p hp
          by_cases hon : b'.Online = true
          · rw [if_pos hon] at hp
            exact hforeign p (List.mem_filter.1 hp).1
          · rw [if_neg hon] at hp
            simp at hp
        rw [hp2]
        show r.2.1.pools.filter _ = _
        rw [hp1, List.filter_append, hnew, List.append_nil]
    | removePoolsForBackend b' =>
      simp only [runCalls] at hrun
      obtain ⟨hc2, hp2⟩ := ih _ _ hrest hrun
      refine ⟨hc2, ?_⟩
      have hne : b'.addr ≠ a := by simpa [Call.avoids] using hcall
      rw [hp2]
      show (st.1.RemovePoolsForBackend b').pools.filter _ = _
      rw [removePoolsForBackend_pools, List.filter_filter]
      apply List.filter_congr
      intro p _
      by_cases hpa : p.Backend.addr = a
      · have : p.Backend.addr ≠ b'.addr := fun e => hne (e ▸ hpa)
        simp [hpa, this, hne.symm]
      · simp [hpa]

/-- Claim C8, refuted as stated.  The class `gold` has no member and the online backend `A`
exposes the matching pool `p1`: after `RemovePoolsForBackend(A)` and `CheckAndAddBackend(A)`
the membership is `[p1]`, not the empty membership held before.  With the member `p1` and the
same backend offline, the two calls leave no member.  After registering once the backend
that exposes `q1`, a pool owned by another backend, the membership `[q1]` becomes
`[q1, q1]`.  And after registering `A` on a class that already holds `p1`, the membership
`[p1, p1]` becomes `[p1]`. -/
theorem remove_then_add_counterexample :
    (exBackendA.Online = true ∧ exGold.pools = [] ∧
      ∃ (n : Nat) (s' : StorageClass String String) (h' : PoolClasses),
        (exGold.RemovePoolsForBackend exBackendA).CheckAndAddBackend exMatch exBackendA [] =
          some (n, s', h') ∧ s'.pools = [exP1]) ∧
    (∃ (n : Nat) (s' : StorageClass String String) (h' : PoolClasses),
        (StorageClass.RemovePoolsForBackend { exGold with pools := [exP1] }
          exBackendAOffline).CheckAndAddBackend exMatch exBackendAOffline [] =
          some (n, s', h') ∧ s'.pools = []) ∧
    (∃ (s s' : StorageClass String String) (h h' : PoolClasses),
        exGold.CheckAndAddBackend exMatch exBackendAForeign [] = some (1, s, h) ∧
        s.pools = [exQ1] ∧
        (s.RemovePoolsForBackend exBackendAForeign).CheckAndAddBackend exMatch
          exBackendAForeign h = some (1, s', h') ∧
        s'.pools = [exQ1, exQ1]) ∧
    (∃ (s s' : StorageClass String String) (h h' : PoolClasses),
        StorageClass.CheckAndAddBackend exMatch { exGold with pools := [exP1] } exBackendA [] =
          some (1, s, h) ∧
        s.pools = [exP1, exP1] ∧
        (s.RemovePoolsForBackend exBackendA).CheckAndAddBackend exMatch exBackendA h =
          some (1, s', h') ∧
        s'.pools = [exP1]) :=
  ⟨⟨rfl, rfl, _, _, _, rfl, rfl⟩, ⟨_, _, _, rfl, rfl⟩, ⟨_, _, _, _, rfl, rfl, rfl, rfl⟩,
    ⟨_, _, _, _, rfl, rfl, rfl, rfl⟩⟩

/-- Claim C8, amended.  Let `b` be a backend all of whose exposed pools have `b` as their
backend, registered by `CheckAndAddBackend(b)` on a class with no member owned by `b`, and
let any sequence of calls follow that avoid `b` (registrations of backends exposing no pool
owned by `b`, removals of other backends), all calls returning.  Then
`RemovePoolsForBackend(b)` followed by `CheckAndAddBackend(b)` returns, keeps the
configuration, and restores the membership to the pools it held before the two calls up to
order: the members not owned by `b`, in their order, followed by the members owned by `b`,
in their order.  With no call in between, the membership is restored exactly. -/
theorem remove_then_add (om : Offer → Request → Bool) (s0 s : StorageClass Offer Request)
    (b : StorageBackend Offer) (h0 h : PoolClasses) (calls : List (Call Offer))
    (hown : ∀ p ∈ b.Storage, p.Backend.addr = b.addr)
    (hfresh : ∀ p ∈ s0.pools, p.Backend.addr ≠ b.addr)
    (havoid : ∀ call ∈ calls, call.avoids b.addr = true)
    (hrun : runCalls om (Call.checkAndAddBackend b :: calls) (s0, h0) = some (s, h)) :
    ∃ (n : Nat) (s' : StorageClass Offer Request) (h' : PoolClasses),
      (s.RemovePoolsForBackend b).CheckAndAddBackend om b h = some (n, s', h') ∧
      s'.config = s.config ∧
      s'.pools.Perm s.pools ∧
      (∀ p, p ∈ s'.pools ↔ p ∈ s.pools) ∧
      s'.pools = s.pools.filter (fun p => decide (p.Backend.addr ≠ b.addr)) ++
        s.pools.filter (fun p => decide (p.Backend.addr = b.addr)) ∧
      (calls = [] → s'.pools = s.pools) := by
  -- the registration of `b`
  cases hadd : s0.CheckAndAddBackend om b h0 with
  | none => simp [runCalls, hadd] at hrun
  | some r =>
    simp only [runCalls, hadd] at hrun
    obtain ⟨hc1, hp1⟩ := checkAndAddBackend_pools_of_some om s0 b h0 r hadd
    -- the calls in between keep the members owned by `b`
    obtain ⟨hc2, hp2⟩ := runCalls_filter_owned om b.addr calls _ _ havoid hrun
    have hcfg : s.config = s0.config := hc2.trans hc1
    have hmatch : ∀ p, s.Matches om p = s0.Matches om p :=
      fun p => matches_of_config_eq om s0 s p hcfg
    have hadded : ∀ p ∈ (if b.Online = true then
          b.Storage.filter (fun p => decide (s0.Matches om p = some true)) else []),
        p.Backend.addr = b.addr := by
      intro p hp
      by_cases hon : b.Online = true
      · rw [if_pos hon] at hp
        exact hown p (List.mem_filter.1 hp).1
      · rw [if_neg hon] at hp
        simp at hp
    have howned : s.pools.filter (fun p => decide (p.Backend.addr = b.addr)) =
        (if b.Online = true then
          b.Storage.filter (fun p => decide (s0.Matches om p = some true)) else []) := by
      have h2 : s.pools.filter (fun p => decide (p.Backend.addr = b.addr)) =
          r.2.1.pools.filter (fun p => decide (p.Backend.addr = b.addr)) := hp2
      rw [h2, hp1, List.filter_append, filter_owned_of_not_owned b.addr s0.pools hfresh,
        filter_owned_of_owned b.addr _ hadded, List.nil_append]
    -- the two calls
    have hrem : (s.RemovePoolsForBackend b).pools =
        s.pools.filter (fun p => decide (p.Backend.addr ≠ b.addr)) :=
      removePoolsForBackend_pools s b
    have hresult : ∃ (n : Nat) (s' : StorageClass Offer Request) (h' : PoolClasses),
        (s.RemovePoolsForBackend b).CheckAndAddBackend om b h = some (n, s', h') ∧
        s'.config = s.config ∧
        s'.pools = s.pools.filter (fun p => decide (p.Backend.addr ≠ b.addr)) ++
          s.pools.filter (fun p => decide (p.Backend.addr = b.addr)) := by
      cases hon : b.Online with
      | false =>
        refine ⟨0, s.RemovePoolsForBackend b, h,
          checkAndAddBackend_offline_eq om _ b h hon, rfl, ?_⟩
        rw [howned, hrem]
        simp [hon]
      | true =>
        have hok0 := checkAndAddBackend_ne_none om s0 b h0 r hon hadd
        have hok : ∀ p ∈ b.Storage, (s.RemovePoolsForBackend b).Matches om p ≠ none := by
          intro p hp
          have : (s.RemovePoolsForBackend b).Matches om p = s0.Matches om p :=
            matches_of_config_eq om s0 _ p hcfg
          rw [this]
          exact hok0 p hp
        refine ⟨_, _, _, checkAndAddBackend_eq om (s.RemovePoolsForBackend b) b h hon hok,
          rfl, ?_⟩
        show (s.RemovePoolsForBackend b).pools ++
          b.Storage.filter (fun p => decide ((s.RemovePoolsForBackend b).Matches om p = some true))
            = _
        rw [howned, hrem, if_pos hon]
        congr 1
        apply List.filter_congr
        intro p _
        have : (s.RemovePoolsForBackend b).Matches om p = s0.Matches om p :=
          matches_of_config_eq om s0 _ p hcfg
        rw [this]
    obtain ⟨n, s', h', heq, hcfg', hpools⟩ := hresult
    have hperm : s'.pools.Perm s.pools := by
      rw [hpools]
      exact filter_owned_perm b.addr s.pools
    refine ⟨n, s', h', heq, hcfg', hperm, fun p => hperm.mem_iff, hpools, ?_⟩
    intro hnil
    subst hnil
    simp only [runCalls, Option.some.injEq, Prod.mk.injEq] at hrun
    obtain ⟨hs, _⟩ := hrun
    rw [hpools, ← hs, hp1, List.filter_append, List.filter_append,
      filter_owned_of_not_owned b.addr s0.pools hfresh,
      filter_owned_of_owned b.addr _ hadded,
      filter_not_owned_of_owned b.addr _ hadded,
      List.filter_eq_self.2 (fun p hp => by simpa using hfresh p hp)]
    simp

/-- The class `gold`, without member, after registering the backend `A` and then the backend
`B`: the membership is `[p1, r1]`; removing and re-adding `A` gives `[r1, p1]`, the same
pools in another order. -/
theorem remove_then_add_witness :
    (∀ p ∈ exBackendA.Storage, p.Backend.addr = exBackendA.addr) ∧
    (∀ p ∈ exGold.pools, p.Backend.addr ≠ exBackendA.addr) ∧
    (∀ call ∈ [Call.checkAndAddBackend exBackendB], call.avoids exBackendA.addr = true) ∧
    runCalls exMatch [Call.checkAndAddBackend exBackendA, Call.checkAndAddBackend exBackendB]
      (exGold, []) =
      some ({ exGold with pools := [exP1, exR1] }, [(11, "gold"), (31, "gold")]) ∧
    ∃ (n : Nat) (s' : StorageClass String String) (h' : PoolClasses),
      (StorageClass.RemovePoolsForBackend { exGold with pools := [exP1, exR1] }
        exBackendA).CheckAndAddBackend exMatch exBackendA [(11, "gold"), (31, "gold")] =
        some (n, s', h') ∧
      s'.pools.Perm [exP1, exR1] ∧ s'.pools = [exR1, exP1] :=
  ⟨by decide, by decide, by decide, rfl, by
    obtain ⟨n, s', h', heq, _, hperm, _, hpools, _⟩ :=
      remove_then_add exMatch exGold { exGold with pools := [exP1, exR1] } exBackendA []
        [(11, "gold"), (31, "gold")] [Call.checkAndAddBackend exBackendB]
        (by decide) (by decide) (by decide) rfl
    exact ⟨n, s', h', heq, hperm, hpools⟩⟩

end storage_class
